import Mathlib

/-!
Verification development for the "Independent Tabs" browser side panel.

The core engine of `src/sidepanel.js` keeps an ordered mixed sequence
`items` of ungrouped tab ids and group objects, reconciles it with the
live tab set, and mutates it through drag moves, group lifecycle
operations and a debounced removal queue.  This file gives a shallow
embedding of that data model and of the operations, and proves the
stated invariants and functional properties about them.

Conventions of the embedding:
* a JavaScript number tab id becomes a `Nat`;
* the mixed `items` array becomes `List Item` with `Item` a tagged union
  of tab references and groups (matching the `typeof item === 'number'`
  versus `item.group` discrimination in the source);
* `Array.prototype.sort` (stable since ES2019) is modelled by a stable
  insertion sort over the JavaScript comparator's key;
* sources of nondeterminism of the host environment (fresh tab ids,
  `Math.random`, `crypto.randomUUID`, fulfilled/rejected tab creations)
  are passed in as explicit parameters.
-/

namespace IndependentTabs

/-- A group object of `sidepanel.js`:
`{ group: 'uuid', name, color, tabs: [tabId, ...], autoSave?, linkedSessionId? }`.
The `group` field (the id) is named `id` here. Absent optional fields are
modelled by `false` / `none`. -/
structure Group where
  id : String
  name : String
  color : String
  tabs : List Nat
  autoSave : Bool := false
  linkedSessionId : Option String := none
deriving DecidableEq

/-- An entry of the mixed `items` array: a bare tab id or a group object. -/
inductive Item where
  | tab (id : Nat)
  | group (g : Group)
deriving DecidableEq

/-- The `newTabPosition` setting: `'top'` or `'bottom'`. -/
inductive NewTabPos where
  | top
  | bottom
deriving DecidableEq

/-- The fixed `GROUP_COLORS` palette of `sidepanel.js`. -/
def GROUP_COLORS : List String :=
  ["#e91e63", "#9c27b0", "#673ab7", "#3f51b5", "#2196f3",
   "#00bcd4", "#009688", "#4caf50", "#8bc34a", "#ff9800", "#ff5722"]

/-- `getAllTabIds()`: the flattened visual order of all tab ids, root tabs
and group members interleaved in structural order. -/
def getAllTabIds : List Item → List Nat
  | [] => []
  | .tab id :: rest => id :: getAllTabIds rest
  | .group g :: rest => g.tabs ++ getAllTabIds rest

/-- The removal phase of `syncItemsWithTabs`: `items.filter(...)` keeping
live root tabs, filtering each group's `tabs` to the live set and dropping
groups that become empty. -/
def syncRemove (live : List Nat) : List Item → List Item
  | [] => []
  | .tab id :: rest =>
      if id ∈ live then .tab id :: syncRemove live rest else syncRemove live rest
  | .group g :: rest =>
      let ts := g.tabs.filter (fun id => decide (id ∈ live))
      if ts.isEmpty then syncRemove live rest
      else .group { g with tabs := ts } :: syncRemove live rest

/-- Root-level insertion of a tab at the configured position:
`items.unshift(tab.id)` for `'top'`, `items.push(tab.id)` for `'bottom'`
(the if/else shared verbatim by `syncItemsWithTabs` and the `onCreated`
listener). -/
def rootAdd (pos : NewTabPos) (tabId : Nat) (items : List Item) : List Item :=
  match pos with
  | .top => .tab tabId :: items
  | .bottom => items ++ [Item.tab tabId]

/-- The addition phase of `syncItemsWithTabs`: `missingTabs.forEach`, each
missing live tab `unshift`ed (setting `'top'`) or `push`ed (setting
`'bottom'`) onto `items` in turn. -/
def addMissing (pos : NewTabPos) (live : List Nat) (items : List Item) : List Item :=
  let itemTabIds := getAllTabIds items
  let missingTabs := live.filter (fun id => decide (id ∉ itemTabIds))
  missingTabs.foldl (fun acc id => rootAdd pos id acc) items

/-- `syncItemsWithTabs(tabs)`: remove closed tabs (cascading empty groups),
then add the live tabs missing from `items` at the configured position. -/
def syncItemsWithTabs (pos : NewTabPos) (live : List Nat) (items : List Item) : List Item :=
  addMissing pos live (syncRemove live items)

/-- The single batched filter pass of `processRemoveQueue`: drop every
queued tab id from the root and from every group's `tabs`, removing
groups that become empty. -/
def processRemoveQueue (removeQueue : List Nat) : List Item → List Item
  | [] => []
  | .tab id :: rest =>
      if id ∈ removeQueue then processRemoveQueue removeQueue rest
      else .tab id :: processRemoveQueue removeQueue rest
  | .group g :: rest =>
      let ts := g.tabs.filter (fun id => decide (id ∉ removeQueue))
      if ts.isEmpty then processRemoveQueue removeQueue rest
      else .group { g with tabs := ts } :: processRemoveQueue removeQueue rest

/-- `removeTabFromItems(tabId)`: scan `items`, remove the first root
occurrence of the tab, or remove it from the first group containing it
(`splice` of the first index), deleting the group if it becomes empty;
stop at the first hit. -/
def removeTabFromItems (tabId : Nat) : List Item → List Item
  | [] => []
  | .tab id :: rest =>
      if id = tabId then rest else .tab id :: removeTabFromItems tabId rest
  | .group g :: rest =>
      if tabId ∈ g.tabs then
        let ts := g.tabs.erase tabId
        if ts.isEmpty then rest else .group { g with tabs := ts } :: rest
      else .group g :: removeTabFromItems tabId rest

/-- `Array.prototype.splice(idx, 0, ...xs)`: insert `xs` at index `idx`,
clamping to the end of the list as the JavaScript method does. -/
def spliceAt (idx : Nat) (xs : List α) (l : List α) : List α :=
  l.take idx ++ xs ++ l.drop idx

/-- Insertion of tab ids into the `tabs` of the first group with the given
id (`items.find(item => item.group === toGroupId)` followed by
`group.tabs.splice(idx, 0, ...)`); no-op when no such group exists. -/
def spliceIntoGroup (gid : String) (idx : Nat) (newTabs : List Nat) : List Item → List Item
  | [] => []
  | .tab id :: rest => .tab id :: spliceIntoGroup gid idx newTabs rest
  | .group g :: rest =>
      if g.id = gid then .group { g with tabs := spliceAt idx newTabs g.tabs } :: rest
      else .group g :: spliceIntoGroup gid idx newTabs rest

/-- A drop destination of a drag: a root index, or an index inside the
group with the given id. -/
inductive Dest where
  | root (idx : Nat)
  | intoGroup (gid : String) (idx : Nat)
deriving DecidableEq

/-- The single-tab path of `handleDragEnd`: `removeTabFromItems(tabId)`
then splice the tab at the drop position (into the target group when one
is hit, silently dropping the insertion if that group no longer exists). -/
def handleDragEndTab (tabId : Nat) (dest : Dest) (items : List Item) : List Item :=
  let items2 := removeTabFromItems tabId items
  match dest with
  | .root idx => spliceAt idx [Item.tab tabId] items2
  | .intoGroup gid idx => spliceIntoGroup gid idx [tabId] items2

/-- The sort key of the `handleMultiDrag` comparator
`allTabIds.indexOf(a) - allTabIds.indexOf(b)`: the index in the flattened
order, `-1` when absent, exactly as `indexOf` yields. -/
def idxKey (allIds : List Nat) (a : Nat) : Int :=
  if a ∈ allIds then (List.indexOf a allIds : Int) else -1

/-- Stable insertion step: place `a` before the first element whose key is
strictly larger, passing over elements with smaller or equal keys. -/
def insertByKey (key : Nat → Int) (a : Nat) : List Nat → List Nat
  | [] => [a]
  | b :: l => if key a ≤ key b then a :: b :: l else b :: insertByKey key a l

/-- Stable sort by key, modelling the (stable) `Array.prototype.sort`. -/
def sortByKey (key : Nat → Int) : List Nat → List Nat
  | [] => []
  | a :: l => insertByKey key a (sortByKey key l)

/-- The re-sorting step of `handleMultiDrag`:
`tabIds.sort((a, b) => allTabIds.indexOf(a) - allTabIds.indexOf(b))`. -/
def sortTabIds (allIds : List Nat) (tabIds : List Nat) : List Nat :=
  sortByKey (idxKey allIds) tabIds

/-- `handleMultiDrag(tabIds, toGroupId, insertIndex)`: re-sort the selected
tabs into their current flattened order, remove each from its position,
then splice the whole block at the drop position. -/
def handleMultiDrag (tabIds : List Nat) (dest : Dest) (items : List Item) : List Item :=
  let allIds := getAllTabIds items
  let orderedTabIds := sortTabIds allIds tabIds
  let items2 := orderedTabIds.foldl (fun acc id => removeTabFromItems id acc) items
  match dest with
  | .root idx => spliceAt idx (orderedTabIds.map Item.tab) items2
  | .intoGroup gid idx => spliceIntoGroup gid idx orderedTabIds items2

/-- The colors used by the existing groups
(`items.filter(i => i.group).map(g => g.color)`). -/
def usedColors : List Item → List String
  | [] => []
  | .tab _ :: rest => usedColors rest
  | .group g :: rest => g.color :: usedColors rest

/-- `getNextGroupColor()`: the first palette color not used by any existing
group, or `GROUP_COLORS[Math.floor(Math.random() * length)]` when all are
in use; the random draw is passed in as `rand`. -/
def getNextGroupColor (items : List Item) (rand : Nat) : String :=
  let used := usedColors items
  match GROUP_COLORS.find? (fun c => decide (c ∉ used)) with
  | some c => c
  | none => GROUP_COLORS.getD (rand % GROUP_COLORS.length) ""

/-- The root index of the first root occurrence of a bare tab id, as
scanned by the `items[i] === tabId` loop of `createGroup`. -/
def rootIndexOf (tabId : Nat) : List Item → Option Nat
  | [] => none
  | .tab id :: rest =>
      if id = tabId then some 0 else (rootIndexOf tabId rest).map (· + 1)
  | .group _ :: rest => (rootIndexOf tabId rest).map (· + 1)

/-- The `insertIndex` computed by `createGroup`: the minimum over the
selected tabs of their first root index, starting from `items.length`. -/
def createGroupInsertIndex (tabIds : List Nat) (items : List Item) : Nat :=
  tabIds.foldl
    (fun acc tid =>
      match rootIndexOf tid items with
      | some i => min acc i
      | none => acc)
    items.length

/-- `createGroup(tabIds, name)`: pick the next color, compute the insertion
index as the position of the structurally first selected root tab, remove
each selected tab from its current position while pushing it onto the new
group's `tabs`, and splice the new group in.  The fresh group id and the
random color draw are passed in as `newId` and `rand`. -/
def createGroup (newId : String) (rand : Nat) (tabIds : List Nat) (name : String)
    (items : List Item) : List Item :=
  let color := getNextGroupColor items rand
  let insertIndex := createGroupInsertIndex tabIds items
  let items2 := tabIds.foldl (fun acc tid => removeTabFromItems tid acc) items
  let g : Group := { id := newId, name := name, color := color, tabs := tabIds }
  spliceAt insertIndex [Item.group g] items2

/-- `items.find(item => item.group === groupId)`: the first group with the
given id. -/
def findGroup (gid : String) : List Item → Option Group
  | [] => none
  | .tab _ :: rest => findGroup gid rest
  | .group g :: rest => if g.id = gid then some g else findGroup gid rest

/-- `getTabGroupId(tabId)`: the id of the first group whose `tabs` contain
the tab, else `null`. -/
def getTabGroupId (tabId : Nat) : List Item → Option String
  | [] => none
  | .tab _ :: rest => getTabGroupId tabId rest
  | .group g :: rest =>
      if tabId ∈ g.tabs then some g.id else getTabGroupId tabId rest

/-- JavaScript truthiness of an optional string field (absent and the
empty string are falsy). -/
def truthyStr : Option String → Bool
  | none => false
  | some s => s ≠ ""

/-- `queueAutosave(groupId)` restricted to its observable effect on the
autosave queue: enqueue the group id unless the group is gone, has
`autoSave` off, or has no truthy `linkedSessionId`. -/
def queueAutosave (gid : String) (items : List Item) (queue : List String) : List String :=
  match findGroup gid items with
  | none => queue
  | some g =>
      if g.autoSave && truthyStr g.linkedSessionId then
        if gid ∈ queue then queue else queue ++ [gid]
      else queue

/-- Appending a created tab to the first group with the given id, at the
position dictated by the setting (`unshift` for top, `push` for bottom). -/
def addToGroupPos (pos : NewTabPos) (gid : String) (tabId : Nat) : List Item → List Item
  | [] => []
  | .tab id :: rest => .tab id :: addToGroupPos pos gid tabId rest
  | .group g :: rest =>
      if g.id = gid then
        let ts := match pos with
          | NewTabPos.top => tabId :: g.tabs
          | NewTabPos.bottom => g.tabs ++ [tabId]
        .group { g with tabs := ts } :: rest
      else .group g :: addToGroupPos pos gid tabId rest

/-- A `chrome.tabs.onCreated` event: the new tab's id and its optional
opener tab id. -/
structure CreateEvent where
  id : Nat
  openerTabId : Option Nat

/-- The `chrome.tabs.onCreated` listener's effect on `items` and on the
pending-restore set: a tab marked as being restored is skipped (and
unmarked); a tab whose opener sits in a group joins that group at the
configured position; otherwise the tab is added at the root. -/
def onTabCreated (pos : NewTabPos) (restoring : List Nat) (ev : CreateEvent)
    (items : List Item) : List Item × List Nat :=
  if ev.id ∈ restoring then (items, restoring.erase ev.id)
  else
    match ev.openerTabId with
    | some opener =>
        match getTabGroupId opener items with
        | some gid => (addToGroupPos pos gid ev.id items, restoring)
        | none => (rootAdd pos ev.id items, restoring)
    | none => (rootAdd pos ev.id items, restoring)

/-- `ungroupTab(tabId, groupId)`: in the first group with the given id,
remove the first occurrence of the tab, reinsert it right after the group
at the root, and delete the group if it became empty; silent no-op when
the group or the tab inside it is not found. -/
def ungroupTab (tabId : Nat) (gid : String) : List Item → List Item
  | [] => []
  | .tab id :: rest => .tab id :: ungroupTab tabId gid rest
  | .group g :: rest =>
      if g.id = gid then
        if tabId ∈ g.tabs then
          let ts := g.tabs.erase tabId
          if ts.isEmpty then .tab tabId :: rest
          else .group { g with tabs := ts } :: .tab tabId :: rest
        else .group g :: rest
      else .group g :: ungroupTab tabId gid rest

/-- `dissolveGroup(groupId)`: replace the first group with the given id by
its member tabs in place; silent no-op when the group is not found. -/
def dissolveGroup (gid : String) : List Item → List Item
  | [] => []
  | .tab id :: rest => .tab id :: dissolveGroup gid rest
  | .group g :: rest =>
      if g.id = gid then g.tabs.map Item.tab ++ rest
      else .group g :: dissolveGroup gid rest

/-- A tab snapshot inside a saved session: `{url, title, customName}`. -/
structure SessionTab where
  url : String
  title : String
  customName : Option String
deriving DecidableEq

/-- A saved session as stored in `savedSessions` (timestamps omitted:
they never influence the Ordering Model). -/
structure Session where
  id : String
  name : String
  color : String
  autoSave : Bool
  tabs : List SessionTab
deriving DecidableEq

/-- The first group already linked to the session
(`items.find(item => item.group && item.linkedSessionId === sessionId)`). -/
def findLinkedGroup (sessionId : String) : List Item → Option Group
  | [] => none
  | .tab _ :: rest => findLinkedGroup sessionId rest
  | .group g :: rest =>
      if g.linkedSessionId = some sessionId then some g
      else findLinkedGroup sessionId rest

/-- `restoreSession(sessionId)` restricted to its effect on `items` and on
the tab-creation commands it issues.  Returns the new `items` and the list
of urls passed to `chrome.tabs.create`.  The session lookup is the
`savedSessions` map; `createResults` is the oracle of batch outcomes (one
entry per session tab: the fulfilled tab id, or `none` for a rejection);
`newGid` is the fresh group id.  An already-open linked group redirects the
restore to focusing that group: `items` untouched, no creation commands. -/
def restoreSession (savedSessions : String → Option Session) (sessionId : String)
    (newGid : String) (createResults : List (Option Nat)) (items : List Item) :
    List Item × List String :=
  match savedSessions sessionId with
  | none => (items, [])
  | some s =>
    if s.tabs.isEmpty then (items, [])
    else
      match findLinkedGroup sessionId items with
      | some _ => (items, [])
      | none =>
          let cmds := s.tabs.map (fun t => t.url)
          let createdTabIds := (createResults.take s.tabs.length).filterMap id
          if createdTabIds.isEmpty then (items, cmds)
          else
            (items ++ [Item.group
              { id := newGid, name := s.name, color := s.color,
                autoSave := s.autoSave, tabs := createdTabIds,
                linkedSessionId := some s.id }], cmds)

/-- An arrow key of the keyboard navigation handler. -/
inductive NavKey where
  | up
  | down
deriving DecidableEq

/-- The `currentIndex` seed of the keydown handler:
`keyboardFocusedTabId !== null ? allTabIds.indexOf(f) : -1` (with
`indexOf` yielding `-1` for an absent id). -/
def curIndex (allIds : List Nat) (focus : Option Nat) : Int :=
  match focus with
  | none => -1
  | some f => if f ∈ allIds then (List.indexOf f allIds : Int) else -1

/-- The index update of the keydown handler: ArrowDown steps forward
unless already at the last index; ArrowUp steps back unless at the first,
starting from the last when there is no current index. -/
def navIndex (len : Nat) (cur : Int) : NavKey → Int
  | .down => if cur < (len : Int) - 1 then cur + 1 else cur
  | .up => if cur > 0 then cur - 1 else if cur = -1 then (len : Int) - 1 else cur

/-- The keyboard navigation handler's effect on the focus cursor: compute
the new index over `getAllTabIds()` and adopt the tab there when the index
is in range (`allTabIds[currentIndex] !== undefined`), keeping the old
focus otherwise; early return when the flattened order is empty. -/
def keyNav (items : List Item) (focus : Option Nat) (k : NavKey) : Option Nat :=
  let allIds := getAllTabIds items
  if allIds.isEmpty then focus
  else
    let i := navIndex allIds.length (curIndex allIds focus) k
    if h : 0 ≤ i ∧ i.toNat < allIds.length then some (allIds.get ⟨i.toNat, h.2⟩)
    else focus

/-- Uniqueness invariant: each tab id appears at most once across the
root items and all group members. -/
def Uniq (items : List Item) : Prop := (getAllTabIds items).Nodup

/-- No-empty-groups invariant: every group present in the model has a
non-empty `tabs` sequence. -/
def GroupsNonempty (items : List Item) : Prop :=
  ∀ g : Group, Item.group g ∈ items → g.tabs ≠ []

/-- The operations of the Ordering Model that the reachability claims
quantify over. -/
inductive Op where
  | created (pos : NewTabPos) (restoring : List Nat) (id : Nat) (opener : Option Nat)
  | removeMany (ids : List Nat)
  | dragSingle (tabId : Nat) (dest : Dest)
  | dragMulti (tabIds : List Nat) (dest : Dest)
  | mkGroup (newId : String) (rand : Nat) (tabIds : List Nat) (name : String)
  | ungroup (tabId : Nat) (gid : String)
  | dissolve (gid : String)
  | sync (pos : NewTabPos) (live : List Nat)

/-- The effect of one operation on `items`. -/
def applyOp : Op → List Item → List Item
  | .created pos restoring id opener, items =>
      (onTabCreated pos restoring ⟨id, opener⟩ items).1
  | .removeMany ids, items => processRemoveQueue ids items
  | .dragSingle tabId dest, items => handleDragEndTab tabId dest items
  | .dragMulti tabIds dest, items => handleMultiDrag tabIds dest items
  | .mkGroup newId rand tabIds name, items => createGroup newId rand tabIds name items
  | .ungroup tabId gid, items => ungroupTab tabId gid items
  | .dissolve gid, items => dissolveGroup gid items
  | .sync pos live, items => syncItemsWithTabs pos live items

/-- Environmental side conditions under which each operation fires in the
panel: created tab ids are fresh, drag selections are sets (hence
duplicate-free), groups are created from a non-empty selection set, and
the live tab ids enumerated by the browser are pairwise distinct. -/
def Op.Allowed : Op → List Item → Prop
  | .created _ _ id _, items => id ∉ getAllTabIds items
  | .dragMulti tabIds _, _ => tabIds.Nodup
  | .mkGroup _ _ tabIds _, _ => tabIds.Nodup ∧ tabIds ≠ []
  | .sync _ live, _ => live.Nodup
  | _, _ => True

/-- States of the Ordering Model reachable from the initial empty model by
the operations above. -/
inductive Reachable : List Item → Prop
  | init : Reachable []
  | step {items : List Item} (op : Op) :
      Reachable items → op.Allowed items → Reachable (applyOp op items)

/-! Basic lemmas about the flattened tab order. -/

theorem getAllTabIds_append (l₁ l₂ : List Item) :
    getAllTabIds (l₁ ++ l₂) = getAllTabIds l₁ ++ getAllTabIds l₂ := by
  induction l₁ with
  | nil => rfl
  | cons it rest ih => cases it <;> simp [getAllTabIds, ih]

theorem getAllTabIds_map_tab (ids : List Nat) :
    getAllTabIds (ids.map Item.tab) = ids := by
  induction ids with
  | nil => rfl
  | cons a l ih => simp [getAllTabIds, ih]

theorem perm_block_middle (xs ys zs : List α) :
    (xs ++ (ys ++ zs)).Perm (ys ++ (xs ++ zs)) := by
  have h := (@List.perm_append_comm _ xs ys).append_right zs
  simpa [List.append_assoc] using h

/-! Lemmas about the batched removal pass and the sync removal phase. -/

theorem getAllTabIds_processRemoveQueue (rem : List Nat) (items : List Item) :
    getAllTabIds (processRemoveQueue rem items)
      = (getAllTabIds items).filter (fun id => decide (id ∉ rem)) := by
  induction items with
  | nil => rfl
  | cons it rest ih =>
    cases it with
    | tab id =>
      by_cases h : id ∈ rem <;>
        simp [processRemoveQueue, getAllTabIds, h, ih, List.filter_cons]
    | group g =>
      simp only [processRemoveQueue, getAllTabIds, List.filter_append]
      split
      · next h =>
        rw [List.isEmpty_iff] at h
        rw [h, ih]
        simp
      · next h =>
        simp [getAllTabIds, ih]

theorem groupsNonempty_processRemoveQueue (rem : List Nat) (items : List Item) :
    GroupsNonempty (processRemoveQueue rem items) := by
  induction items with
  | nil => intro g hg; simp [processRemoveQueue] at hg
  | cons it rest ih =>
    intro g hg
    cases it with
    | tab id =>
      simp only [processRemoveQueue] at hg
      split at hg
      · exact ih g hg
      · rcases List.mem_cons.mp hg with h | h
        · cases h
        · exact ih g h
    | group g0 =>
      simp only [processRemoveQueue] at hg
      split at hg
      · exact ih g hg
      · next h =>
        rcases List.mem_cons.mp hg with h2 | h2
        · injection h2 with h3
          subst h3
          intro hnil
          rw [← List.isEmpty_iff] at hnil
          exact h hnil
        · exact ih g h2

theorem getAllTabIds_syncRemove (live : List Nat) (items : List Item) :
    getAllTabIds (syncRemove live items)
      = (getAllTabIds items).filter (fun id => decide (id ∈ live)) := by
  induction items with
  | nil => rfl
  | cons it rest ih =>
    cases it with
    | tab id =>
      by_cases h : id ∈ live <;>
        simp [syncRemove, getAllTabIds, h, ih, List.filter_cons]
    | group g =>
      simp only [syncRemove, getAllTabIds, List.filter_append]
      split
      · next h =>
        rw [List.isEmpty_iff] at h
        rw [h, ih]
        simp
      · next h =>
        simp [getAllTabIds, ih]

theorem groupsNonempty_syncRemove (live : List Nat) (items : List Item) :
    GroupsNonempty (syncRemove live items) := by
  induction items with
  | nil => intro g hg; simp [syncRemove] at hg
  | cons it rest ih =>
    intro g hg
    cases it with
    | tab id =>
      simp only [syncRemove] at hg
      split at hg
      · rcases List.mem_cons.mp hg with h | h
        · cases h
        · exact ih g h
      · exact ih g hg
    | group g0 =>
      simp only [syncRemove] at hg
      split at hg
      · exact ih g hg
      · next h =>
        rcases List.mem_cons.mp hg with h2 | h2
        · injection h2 with h3
          subst h3
          intro hnil
          rw [← List.isEmpty_iff] at hnil
          exact h hnil
        · exact ih g h2

/-! Lemmas about the authoritative single-removal primitive. -/

theorem getAllTabIds_removeTabFromItems (t : Nat) (items : List Item) :
    getAllTabIds (removeTabFromItems t items) = (getAllTabIds items).erase t := by
  induction items with
  | nil => rfl
  | cons it rest ih =>
    cases it with
    | tab id =>
      by_cases h : id = t
      · subst h
        simp [removeTabFromItems, getAllTabIds, List.erase_cons_head]
      · simp [removeTabFromItems, getAllTabIds, h, ih, List.erase_cons_tail,
          beq_eq_false_iff_ne]
    | group g =>
      by_cases h : t ∈ g.tabs
      · simp only [removeTabFromItems, if_pos h, getAllTabIds]
        rw [List.erase_append_left _ h]
        split
        · next h2 =>
          rw [List.isEmpty_iff] at h2
          rw [h2]
          simp
        · simp [getAllTabIds]
      · simp only [removeTabFromItems, if_neg h, getAllTabIds]
        rw [List.erase_append_right _ h, ih]

theorem groupsNonempty_removeTabFromItems (t : Nat)
    {items : List Item} (h : GroupsNonempty items) :
    GroupsNonempty (removeTabFromItems t items) := by
  induction items with
  | nil => intro g hg; simp [removeTabFromItems] at hg
  | cons it rest ih =>
    have hrest : GroupsNonempty rest := fun g hg => h g (List.mem_cons_of_mem _ hg)
    intro g hg
    cases it with
    | tab id =>
      simp only [removeTabFromItems] at hg
      split at hg
      · exact hrest g hg
      · rcases List.mem_cons.mp hg with h2 | h2
        · cases h2
        · exact ih hrest g h2
    | group g0 =>
      simp only [removeTabFromItems] at hg
      split at hg
      · split at hg
        · exact hrest g hg
        · next h2 =>
          rcases List.mem_cons.mp hg with h3 | h3
          · injection h3 with h4
            subst h4
            intro hnil
            rw [← List.isEmpty_iff] at hnil
            exact h2 hnil
          · exact hrest g h3
      · rcases List.mem_cons.mp hg with h3 | h3
        · injection h3 with h4
          subst h4
          exact h g (List.mem_cons_self _ _)
        · exact ih hrest g h3

/-! Lemmas about splicing insertions and the root/group add paths. -/

theorem getAllTabIds_spliceAt_perm (idx : Nat) (xs items : List Item) :
    (getAllTabIds (spliceAt idx xs items)).Perm
      (getAllTabIds xs ++ getAllTabIds items) := by
  have h1 : getAllTabIds (spliceAt idx xs items)
      = getAllTabIds (items.take idx)
          ++ (getAllTabIds xs ++ getAllTabIds (items.drop idx)) := by
    simp [spliceAt, getAllTabIds_append]
  rw [h1]
  refine (perm_block_middle _ _ _).trans ?_
  apply List.Perm.append_left
  rw [← getAllTabIds_append, List.take_append_drop]

theorem getAllTabIds_spliceIntoGroup (gid : String) (idx : Nat) (ts : List Nat)
    (items : List Item) :
    (getAllTabIds (spliceIntoGroup gid idx ts items)).Perm (ts ++ getAllTabIds items)
      ∨ getAllTabIds (spliceIntoGroup gid idx ts items) = getAllTabIds items := by
  induction items with
  | nil => right; rfl
  | cons it rest ih =>
    cases it with
    | tab id =>
      rcases ih with h | h
      · left
        simp only [spliceIntoGroup, getAllTabIds]
        refine (h.cons id).trans ?_
        have h2 := perm_block_middle [id] ts (getAllTabIds rest)
        simpa using h2
      · right
        simp [spliceIntoGroup, getAllTabIds, h]
    | group g =>
      by_cases hg : g.id = gid
      · left
        simp only [spliceIntoGroup, if_pos hg, getAllTabIds]
        have h1 : spliceAt idx ts g.tabs ++ getAllTabIds rest
            = g.tabs.take idx ++ (ts ++ (g.tabs.drop idx ++ getAllTabIds rest)) := by
          simp [spliceAt, List.append_assoc]
        rw [h1]
        refine (perm_block_middle _ _ _).trans ?_
        apply List.Perm.append_left
        rw [← List.append_assoc, List.take_append_drop]
      · rcases ih with h | h
        · left
          simp only [spliceIntoGroup, if_neg hg, getAllTabIds]
          refine (h.append_left g.tabs).trans ?_
          exact perm_block_middle g.tabs ts (getAllTabIds rest)
        · right
          simp [spliceIntoGroup, if_neg hg, getAllTabIds, h]

theorem getAllTabIds_addToGroupPos (pos : NewTabPos) (gid : String) (t : Nat)
    (items : List Item) :
    (getAllTabIds (addToGroupPos pos gid t items)).Perm (t :: getAllTabIds items)
      ∨ getAllTabIds (addToGroupPos pos gid t items) = getAllTabIds items := by
  induction items with
  | nil => right; rfl
  | cons it rest ih =>
    cases it with
    | tab id =>
      rcases ih with h | h
      · left
        simp only [addToGroupPos, getAllTabIds]
        refine (h.cons id).trans ?_
        exact List.Perm.swap t id _
      · right
        simp [addToGroupPos, getAllTabIds, h]
    | group g =>
      by_cases hg : g.id = gid
      · left
        cases pos with
        | top =>
          simp only [addToGroupPos, if_pos hg, getAllTabIds]
          exact List.Perm.refl _
        | bottom =>
          simp only [addToGroupPos, if_pos hg, getAllTabIds]
          have h1 : (g.tabs ++ [t]) ++ getAllTabIds rest
              = g.tabs ++ ([t] ++ getAllTabIds rest) := by
            simp [List.append_assoc]
          rw [h1]
          exact perm_block_middle g.tabs [t] (getAllTabIds rest)
      · rcases ih with h | h
        · left
          simp only [addToGroupPos, if_neg hg, getAllTabIds]
          refine (h.append_left g.tabs).trans ?_
          exact perm_block_middle g.tabs [t] (getAllTabIds rest)
        · right
          simp [addToGroupPos, if_neg hg, getAllTabIds, h]

theorem getAllTabIds_rootAdd (pos : NewTabPos) (t : Nat) (items : List Item) :
    (getAllTabIds (rootAdd pos t items)).Perm (t :: getAllTabIds items) := by
  cases pos with
  | top => simp [rootAdd, getAllTabIds]
  | bottom =>
    simp only [rootAdd, getAllTabIds_append]
    exact @List.perm_append_comm _ (getAllTabIds items) [t]

theorem getAllTabIds_dissolveGroup (gid : String) (items : List Item) :
    getAllTabIds (dissolveGroup gid items) = getAllTabIds items := by
  induction items with
  | nil => rfl
  | cons it rest ih =>
    cases it with
    | tab id => simp [dissolveGroup, getAllTabIds, ih]
    | group g =>
      by_cases hg : g.id = gid
      · simp [dissolveGroup, if_pos hg, getAllTabIds_append, getAllTabIds_map_tab,
          getAllTabIds]
      · simp [dissolveGroup, if_neg hg, getAllTabIds, ih]

theorem getAllTabIds_ungroupTab_perm (t : Nat) (gid : String) (items : List Item) :
    (getAllTabIds (ungroupTab t gid items)).Perm (getAllTabIds items) := by
  induction items with
  | nil => exact List.Perm.refl _
  | cons it rest ih =>
    cases it with
    | tab id =>
      simp only [ungroupTab, getAllTabIds]
      exact ih.cons id
    | group g =>
      by_cases hg : g.id = gid
      · by_cases ht : t ∈ g.tabs
        · have hperm : g.tabs.Perm (t :: g.tabs.erase t) := List.perm_cons_erase ht
          by_cases he : (g.tabs.erase t).isEmpty
          · simp only [ungroupTab, if_pos hg, if_pos ht, if_pos he, getAllTabIds]
            refine List.Perm.symm ?_
            refine (hperm.append_right _).trans ?_
            rw [List.isEmpty_iff] at he
            rw [he]
            exact List.Perm.refl _
          · simp only [ungroupTab, if_pos hg, if_pos ht, if_neg he, getAllTabIds]
            refine List.Perm.symm ?_
            refine (hperm.append_right _).trans ?_
            exact List.perm_middle.symm
        · simp [ungroupTab, if_pos hg, if_neg ht, getAllTabIds]
      · simp only [ungroupTab, if_neg hg, getAllTabIds]
        exact ih.append_left g.tabs

/-! No-empty-groups preservation for the insertion paths. -/

theorem groupsNonempty_nil : GroupsNonempty [] :=
  fun _ hg => absurd hg (List.not_mem_nil _)

theorem groupsNonempty_spliceAt {idx : Nat} {xs items : List Item}
    (hxs : GroupsNonempty xs) (h : GroupsNonempty items) :
    GroupsNonempty (spliceAt idx xs items) := by
  intro g hg
  simp only [spliceAt] at hg
  rcases List.mem_append.mp hg with hg | hg
  · rcases List.mem_append.mp hg with hg | hg
    · exact h g (List.take_subset _ _ hg)
    · exact hxs g hg
  · exact h g (List.drop_subset _ _ hg)

theorem groupsNonempty_spliceIntoGroup (gid : String) (idx : Nat) (ts : List Nat)
    {items : List Item} (h : GroupsNonempty items) :
    GroupsNonempty (spliceIntoGroup gid idx ts items) := by
  induction items with
  | nil => exact fun g hg => absurd hg (List.not_mem_nil _)
  | cons it rest ih =>
    have hrest : GroupsNonempty rest := fun g hg => h g (List.mem_cons_of_mem _ hg)
    intro g hg
    cases it with
    | tab id =>
      simp only [spliceIntoGroup] at hg
      rcases List.mem_cons.mp hg with h2 | h2
      · simp at h2
      · exact ih hrest g h2
    | group g0 =>
      simp only [spliceIntoGroup] at hg
      split at hg
      · rcases List.mem_cons.mp hg with h2 | h2
        · injection h2 with h3
          subst h3
          have h4 := h g0 (List.mem_cons_self _ _)
          intro hnil
          simp only [spliceAt] at hnil
          rcases List.append_eq_nil.mp hnil with ⟨hrest2, htd⟩
          rcases List.append_eq_nil.mp hrest2 with ⟨hta, _⟩
          have h5 := List.take_append_drop idx g0.tabs
          rw [hta, htd] at h5
          exact h4 h5.symm
        · exact hrest g h2
      · rcases List.mem_cons.mp hg with h2 | h2
        · injection h2 with h3
          subst h3
          exact h g (List.mem_cons_self _ _)
        · exact ih hrest g h2

theorem groupsNonempty_addToGroupPos (pos : NewTabPos) (gid : String) (t : Nat)
    {items : List Item} (h : GroupsNonempty items) :
    GroupsNonempty (addToGroupPos pos gid t items) := by
  induction items with
  | nil => exact fun g hg => absurd hg (List.not_mem_nil _)
  | cons it rest ih =>
    have hrest : GroupsNonempty rest := fun g hg => h g (List.mem_cons_of_mem _ hg)
    intro g hg
    cases it with
    | tab id =>
      simp only [addToGroupPos] at hg
      rcases List.mem_cons.mp hg with h2 | h2
      · simp at h2
      · exact ih hrest g h2
    | group g0 =>
      simp only [addToGroupPos] at hg
      split at hg
      · rcases List.mem_cons.mp hg with h2 | h2
        · injection h2 with h3
          subst h3
          cases pos with
          | top => intro hnil; simp at hnil
          | bottom => intro hnil; simp at hnil
        · exact hrest g h2
      · rcases List.mem_cons.mp hg with h2 | h2
        · injection h2 with h3
          subst h3
          exact h g (List.mem_cons_self _ _)
        · exact ih hrest g h2

theorem groupsNonempty_rootAdd (pos : NewTabPos) (t : Nat)
    {items : List Item} (h : GroupsNonempty items) :
    GroupsNonempty (rootAdd pos t items) := by
  cases pos with
  | top =>
    intro g hg
    simp only [rootAdd] at hg
    rcases List.mem_cons.mp hg with h2 | h2
    · simp at h2
    · exact h g h2
  | bottom =>
    intro g hg
    simp only [rootAdd] at hg
    rcases List.mem_append.mp hg with h2 | h2
    · exact h g h2
    · simp at h2

theorem groupsNonempty_ungroupTab (t : Nat) (gid : String)
    {items : List Item} (h : GroupsNonempty items) :
    GroupsNonempty (ungroupTab t gid items) := by
  induction items with
  | nil => exact fun g hg => absurd hg (List.not_mem_nil _)
  | cons it rest ih =>
    have hrest : GroupsNonempty rest := fun g hg => h g (List.mem_cons_of_mem _ hg)
    intro g hg
    cases it with
    | tab id =>
      simp only [ungroupTab] at hg
      rcases List.mem_cons.mp hg with h2 | h2
      · simp at h2
      · exact ih hrest g h2
    | group g0 =>
      simp only [ungroupTab] at hg
      split at hg
      · split at hg
        · split at hg
          · rcases List.mem_cons.mp hg with h2 | h2
            · simp at h2
            · exact hrest g h2
          · next he =>
            rcases List.mem_cons.mp hg with h2 | h2
            · injection h2 with h3
              subst h3
              intro hnil
              rw [← List.isEmpty_iff] at hnil
              exact he hnil
            · rcases List.mem_cons.mp h2 with h3 | h3
              · simp at h3
              · exact hrest g h3
        · rcases List.mem_cons.mp hg with h2 | h2
          · injection h2 with h3
            subst h3
            exact h g (List.mem_cons_self _ _)
          · exact hrest g h2
      · rcases List.mem_cons.mp hg with h2 | h2
        · injection h2 with h3
          subst h3
          exact h g (List.mem_cons_self _ _)
        · exact ih hrest g h2

theorem groupsNonempty_dissolveGroup (gid : String)
    {items : List Item} (h : GroupsNonempty items) :
    GroupsNonempty (dissolveGroup gid items) := by
  induction items with
  | nil => exact fun g hg => absurd hg (List.not_mem_nil _)
  | cons it rest ih =>
    have hrest : GroupsNonempty rest := fun g hg => h g (List.mem_cons_of_mem _ hg)
    intro g hg
    cases it with
    | tab id =>
      simp only [dissolveGroup] at hg
      rcases List.mem_cons.mp hg with h2 | h2
      · simp at h2
      · exact ih hrest g h2
    | group g0 =>
      simp only [dissolveGroup] at hg
      split at hg
      · rcases List.mem_append.mp hg with h2 | h2
        · rcases List.mem_map.mp h2 with ⟨x, _, h3⟩
          simp at h3
        · exact hrest g h2
      · rcases List.mem_cons.mp hg with h2 | h2
        · injection h2 with h3
          subst h3
          exact h g (List.mem_cons_self _ _)
        · exact ih hrest g h2

/-! Lemmas about iterated removal and the addition phase of the sync. -/

theorem getAllTabIds_foldl_remove (ts : List Nat) (items : List Item) :
    getAllTabIds (ts.foldl (fun acc id => removeTabFromItems id acc) items)
      = ts.foldl (fun acc id => acc.erase id) (getAllTabIds items) := by
  induction ts generalizing items with
  | nil => rfl
  | cons a t ih =>
    simp only [List.foldl_cons]
    rw [ih, getAllTabIds_removeTabFromItems]

theorem groupsNonempty_foldl_remove (ts : List Nat) {items : List Item}
    (h : GroupsNonempty items) :
    GroupsNonempty (ts.foldl (fun acc id => removeTabFromItems id acc) items) := by
  induction ts generalizing items with
  | nil => exact h
  | cons a t ih => exact ih (groupsNonempty_removeTabFromItems a h)

theorem nodup_foldl_erase {l : List Nat} (hnd : l.Nodup) (ts : List Nat) :
    (ts.foldl (fun acc id => acc.erase id) l).Nodup := by
  induction ts generalizing l with
  | nil => exact hnd
  | cons a t ih => exact ih (hnd.erase a)

theorem mem_foldl_erase {l : List Nat} (hnd : l.Nodup) (ts : List Nat) (b : Nat) :
    b ∈ ts.foldl (fun acc id => acc.erase id) l ↔ b ∈ l ∧ b ∉ ts := by
  induction ts generalizing l with
  | nil => simp
  | cons a t ih =>
    simp only [List.foldl_cons]
    rw [ih (hnd.erase a), hnd.mem_erase_iff]
    simp only [List.mem_cons]
    constructor
    · rintro ⟨⟨hba, hbl⟩, hbt⟩
      exact ⟨hbl, fun h => h.elim hba hbt⟩
    · rintro ⟨hbl, hcon⟩
      exact ⟨⟨fun h2 => hcon (Or.inl h2), hbl⟩, fun h2 => hcon (Or.inr h2)⟩

theorem perm_append_foldl_erase {l : List Nat} (hnd : l.Nodup) :
    ∀ ts : List Nat, ts.Nodup → (∀ a ∈ ts, a ∈ l) →
      (ts ++ ts.foldl (fun acc id => acc.erase id) l).Perm l := by
  intro ts
  induction ts generalizing l with
  | nil => intro _ _; exact List.Perm.refl _
  | cons a t ih =>
    intro hts hsub
    rcases List.nodup_cons.mp hts with ⟨hat, htnd⟩
    have hal : a ∈ l := hsub a (List.mem_cons_self _ _)
    have hstep : ((a :: t) ++ (a :: t).foldl (fun acc id => acc.erase id) l)
        = a :: (t ++ t.foldl (fun acc id => acc.erase id) (l.erase a)) := by
      simp [List.foldl_cons]
    rw [hstep]
    have hsub2 : ∀ x ∈ t, x ∈ l.erase a := by
      intro x hx
      exact (hnd.mem_erase_iff).mpr
        ⟨fun hxa => hat (hxa ▸ hx), hsub x (List.mem_cons_of_mem _ hx)⟩
    have ihh := ih (hnd.erase a) htnd hsub2
    refine (ihh.cons a).trans ?_
    exact (List.perm_cons_erase hal).symm

theorem foldl_rootAdd_bottom (ids : List Nat) (items : List Item) :
    ids.foldl (fun acc id => rootAdd .bottom id acc) items
      = items ++ ids.map Item.tab := by
  induction ids generalizing items with
  | nil => simp
  | cons a l ih =>
    simp only [List.foldl_cons, List.map_cons]
    rw [ih]
    simp [rootAdd, List.append_assoc]

theorem foldl_rootAdd_top (ids : List Nat) (items : List Item) :
    ids.foldl (fun acc id => rootAdd .top id acc) items
      = (ids.reverse.map Item.tab) ++ items := by
  induction ids generalizing items with
  | nil => simp
  | cons a l ih =>
    simp only [List.foldl_cons]
    rw [ih]
    simp [rootAdd, List.append_assoc]

theorem addMissing_bottom (live : List Nat) (items : List Item) :
    addMissing .bottom live items
      = items
          ++ (live.filter (fun id => decide (id ∉ getAllTabIds items))).map Item.tab := by
  unfold addMissing
  exact foldl_rootAdd_bottom _ _

theorem addMissing_top (live : List Nat) (items : List Item) :
    addMissing .top live items
      = ((live.filter (fun id => decide (id ∉ getAllTabIds items))).reverse.map Item.tab)
          ++ items := by
  unfold addMissing
  exact foldl_rootAdd_top _ _

theorem groupsNonempty_foldl_rootAdd (pos : NewTabPos) (ids : List Nat)
    {items : List Item} (h : GroupsNonempty items) :
    GroupsNonempty (ids.foldl (fun acc id => rootAdd pos id acc) items) := by
  induction ids generalizing items with
  | nil => exact h
  | cons a t ih => exact ih (groupsNonempty_rootAdd pos a h)

/-! Lemmas about the stable sort used by the multi-drag. -/

theorem insertByKey_perm (key : Nat → Int) (a : Nat) (l : List Nat) :
    (insertByKey key a l).Perm (a :: l) := by
  induction l with
  | nil => exact List.Perm.refl _
  | cons b t ih =>
    by_cases h : key a ≤ key b
    · simp only [insertByKey, if_pos h]
      exact List.Perm.refl _
    · simp only [insertByKey, if_neg h]
      refine (ih.cons b).trans ?_
      exact List.Perm.swap a b t

theorem sortByKey_perm (key : Nat → Int) (l : List Nat) :
    (sortByKey key l).Perm l := by
  induction l with
  | nil => exact List.Perm.refl _
  | cons a t ih =>
    simp only [sortByKey]
    exact (insertByKey_perm key a _).trans (ih.cons a)

theorem pairwise_insertByKey (key : Nat → Int) (a : Nat) {l : List Nat}
    (h : l.Pairwise (fun x y => key x ≤ key y)) :
    (insertByKey key a l).Pairwise (fun x y => key x ≤ key y) := by
  induction l with
  | nil => simp [insertByKey]
  | cons b t ih =>
    rcases List.pairwise_cons.mp h with ⟨hb, ht⟩
    by_cases hab : key a ≤ key b
    · simp only [insertByKey, if_pos hab]
      refine List.pairwise_cons.mpr ⟨?_, h⟩
      intro x hx
      rcases List.mem_cons.mp hx with rfl | hx
      · exact hab
      · exact le_trans hab (hb x hx)
    · simp only [insertByKey, if_neg hab]
      refine List.pairwise_cons.mpr ⟨?_, ih ht⟩
      intro x hx
      have hx' := (insertByKey_perm key a t).mem_iff.mp hx
      rcases List.mem_cons.mp hx' with rfl | hx'
      · exact le_of_not_le hab
      · exact hb x hx'

theorem pairwise_sortByKey (key : Nat → Int) (l : List Nat) :
    (sortByKey key l).Pairwise (fun x y => key x ≤ key y) := by
  induction l with
  | nil => simp [sortByKey]
  | cons a t ih =>
    simp only [sortByKey]
    exact pairwise_insertByKey key a ih

theorem eq_of_perm_sorted (key : Nat → Int) :
    ∀ l₁ l₂ : List Nat, l₁.Perm l₂ →
      l₁.Pairwise (fun x y => key x ≤ key y) →
      l₂.Pairwise (fun x y => key x < key y) → l₁ = l₂ := by
  intro l₁
  induction l₁ with
  | nil =>
    intro l₂ hp _ _
    exact (hp.symm.eq_nil).symm
  | cons a t ih =>
    intro l₂ hp h1 h2
    cases l₂ with
    | nil => exact absurd hp.eq_nil (by simp)
    | cons b u =>
      rcases List.pairwise_cons.mp h1 with ⟨ha, _⟩
      rcases List.pairwise_cons.mp h2 with ⟨hb, _⟩
      have hab : a = b := by
        by_contra hne
        have hbmem : b ∈ a :: t := hp.mem_iff.mpr (List.mem_cons_self b u)
        have hamem : a ∈ b :: u := hp.mem_iff.mp (List.mem_cons_self a t)
        rcases List.mem_cons.mp hbmem with h3 | h3
        · exact hne h3.symm
        · rcases List.mem_cons.mp hamem with h4 | h4
          · exact hne h4
          · exact absurd (ha b h3) (not_le.mpr (hb a h4))
      subst hab
      have hp' := hp.cons_inv
      rw [ih u hp' (List.pairwise_cons.mp h1).2 (List.pairwise_cons.mp h2).2]

theorem pairwise_lt_idxKey {allIds : List Nat} (hnd : allIds.Nodup) :
    allIds.Pairwise (fun x y => idxKey allIds x < idxKey allIds y) := by
  rw [List.pairwise_iff_getElem]
  intro i j hi hj hij
  have hmi : allIds[i] ∈ allIds := List.getElem_mem hi
  have hmj : allIds[j] ∈ allIds := List.getElem_mem hj
  simp only [idxKey, if_pos hmi, if_pos hmj]
  rw [List.indexOf_getElem hnd i hi, List.indexOf_getElem hnd j hj]
  exact_mod_cast hij

theorem sortTabIds_eq_filter {allIds tabIds : List Nat}
    (hall : allIds.Nodup) (hnd : tabIds.Nodup)
    (hsub : ∀ a ∈ tabIds, a ∈ allIds) :
    sortTabIds allIds tabIds = allIds.filter (fun a => decide (a ∈ tabIds)) := by
  apply eq_of_perm_sorted (idxKey allIds)
  · refine (sortByKey_perm _ _).trans ?_
    apply List.perm_of_nodup_nodup_toFinset_eq hnd (hall.filter _)
    ext a
    simp only [List.mem_toFinset, List.mem_filter, decide_eq_true_eq]
    constructor
    · intro ha
      exact ⟨hsub a ha, ha⟩
    · intro ha
      exact ha.2
  · exact pairwise_sortByKey _ _
  · exact List.Pairwise.sublist (List.filter_sublist _) (pairwise_lt_idxKey hall)

/-! Uniqueness preservation for each operation. -/

theorem uniq_syncRemove (live : List Nat) {items : List Item} (h : Uniq items) :
    Uniq (syncRemove live items) := by
  rw [Uniq, getAllTabIds_syncRemove]
  exact h.filter _

theorem uniq_addMissing (pos : NewTabPos) {live : List Nat} (hlive : live.Nodup)
    {items : List Item} (h : Uniq items) : Uniq (addMissing pos live items) := by
  have hmiss : (live.filter (fun id => decide (id ∉ getAllTabIds items))).Nodup :=
    hlive.filter _
  have hdisj : ∀ a ∈ live.filter (fun id => decide (id ∉ getAllTabIds items)),
      a ∉ getAllTabIds items := by
    intro a ha
    have h2 := (List.mem_filter.mp ha).2
    simpa using h2
  cases pos with
  | top =>
    rw [Uniq, addMissing_top, getAllTabIds_append, getAllTabIds_map_tab,
      List.nodup_append]
    refine ⟨List.nodup_reverse.mpr hmiss, h, ?_⟩
    intro a ha hb
    exact hdisj a (List.mem_reverse.mp ha) hb
  | bottom =>
    rw [Uniq, addMissing_bottom, getAllTabIds_append, getAllTabIds_map_tab,
      List.nodup_append]
    refine ⟨h, hmiss, ?_⟩
    intro a ha hb
    exact hdisj a hb ha

theorem uniq_syncItemsWithTabs (pos : NewTabPos) {live : List Nat} (hlive : live.Nodup)
    {items : List Item} (h : Uniq items) : Uniq (syncItemsWithTabs pos live items) :=
  uniq_addMissing pos hlive (uniq_syncRemove live h)

theorem uniq_handleMultiDrag {tabIds : List Nat} (hnd : tabIds.Nodup) (dest : Dest)
    {items : List Item} (h : Uniq items) : Uniq (handleMultiDrag tabIds dest items) := by
  have hond : (sortTabIds (getAllTabIds items) tabIds).Nodup :=
    (sortByKey_perm _ _).symm.nodup hnd
  have hflat2 : getAllTabIds ((sortTabIds (getAllTabIds items) tabIds).foldl
        (fun acc id => removeTabFromItems id acc) items)
      = (sortTabIds (getAllTabIds items) tabIds).foldl
          (fun acc id => acc.erase id) (getAllTabIds items) :=
    getAllTabIds_foldl_remove _ _
  have hnd2 : ((sortTabIds (getAllTabIds items) tabIds).foldl
        (fun acc id => acc.erase id) (getAllTabIds items)).Nodup :=
    nodup_foldl_erase h _
  have hdisj : ∀ a ∈ sortTabIds (getAllTabIds items) tabIds,
      a ∉ (sortTabIds (getAllTabIds items) tabIds).foldl
          (fun acc id => acc.erase id) (getAllTabIds items) := by
    intro a ha hmem
    exact ((mem_foldl_erase h _ a).mp hmem).2 ha
  cases dest with
  | root idx =>
    rw [Uniq]
    simp only [handleMultiDrag]
    refine ((getAllTabIds_spliceAt_perm _ _ _).symm.nodup) ?_
    rw [getAllTabIds_map_tab, hflat2, List.nodup_append]
    exact ⟨hond, hnd2, fun a ha hb => hdisj a ha hb⟩
  | intoGroup gid idx =>
    rw [Uniq]
    simp only [handleMultiDrag]
    rcases getAllTabIds_spliceIntoGroup gid idx (sortTabIds (getAllTabIds items) tabIds)
        ((sortTabIds (getAllTabIds items) tabIds).foldl
          (fun acc id => removeTabFromItems id acc) items) with hsp | hsp
    · refine hsp.symm.nodup ?_
      rw [hflat2, List.nodup_append]
      exact ⟨hond, hnd2, fun a ha hb => hdisj a ha hb⟩
    · rw [hsp, hflat2]
      exact hnd2

theorem handleDragEndTab_eq_multi (t : Nat) (dest : Dest) (items : List Item) :
    handleDragEndTab t dest items = handleMultiDrag [t] dest items := by
  cases dest <;> rfl

theorem uniq_handleDragEndTab (t : Nat) (dest : Dest) {items : List Item}
    (h : Uniq items) : Uniq (handleDragEndTab t dest items) := by
  rw [handleDragEndTab_eq_multi]
  exact uniq_handleMultiDrag (by simp) dest h

theorem uniq_createGroup (newId : String) (rand : Nat) {tabIds : List Nat}
    (hnd : tabIds.Nodup) (name : String) {items : List Item} (h : Uniq items) :
    Uniq (createGroup newId rand tabIds name items) := by
  simp only [createGroup]
  rw [Uniq]
  refine ((getAllTabIds_spliceAt_perm _ _ _).symm.nodup) ?_
  rw [getAllTabIds_foldl_remove]
  have hflat1 : getAllTabIds [Item.group
      { id := newId, name := name, color := getNextGroupColor items rand,
        tabs := tabIds }] = tabIds := by
    simp [getAllTabIds]
  rw [hflat1, List.nodup_append]
  refine ⟨hnd, nodup_foldl_erase h tabIds, ?_⟩
  intro a ha hmem
  exact ((mem_foldl_erase h tabIds a).mp hmem).2 ha

theorem onTabCreated_skip {pos : NewTabPos} {restoring : List Nat} {id : Nat}
    {opener : Option Nat} {items : List Item} (h : id ∈ restoring) :
    onTabCreated pos restoring ⟨id, opener⟩ items = (items, restoring.erase id) := by
  simp [onTabCreated, h]

theorem onTabCreated_opener_group {pos : NewTabPos} {restoring : List Nat} {id op : Nat}
    {gid : String} {items : List Item} (h : id ∉ restoring)
    (hg : getTabGroupId op items = some gid) :
    onTabCreated pos restoring ⟨id, some op⟩ items
      = (addToGroupPos pos gid id items, restoring) := by
  simp [onTabCreated, h, hg]

theorem onTabCreated_root_none {pos : NewTabPos} {restoring : List Nat} {id : Nat}
    {items : List Item} (h : id ∉ restoring) :
    onTabCreated pos restoring ⟨id, none⟩ items = (rootAdd pos id items, restoring) := by
  simp [onTabCreated, h]

theorem onTabCreated_root_opener {pos : NewTabPos} {restoring : List Nat} {id op : Nat}
    {items : List Item} (h : id ∉ restoring) (hg : getTabGroupId op items = none) :
    onTabCreated pos restoring ⟨id, some op⟩ items = (rootAdd pos id items, restoring) := by
  simp [onTabCreated, h, hg]

theorem uniq_onTabCreated (pos : NewTabPos) (restoring : List Nat) (ev : CreateEvent)
    {items : List Item} (h : Uniq items) (hfresh : ev.id ∉ getAllTabIds items) :
    Uniq (onTabCreated pos restoring ev items).1 := by
  obtain ⟨tid, opener⟩ := ev
  have hcons : (tid :: getAllTabIds items).Nodup := List.nodup_cons.mpr ⟨hfresh, h⟩
  by_cases hr : tid ∈ restoring
  · rw [onTabCreated_skip hr]
    exact h
  · cases opener with
    | none =>
      rw [onTabCreated_root_none hr]
      exact (getAllTabIds_rootAdd pos tid items).symm.nodup hcons
    | some op =>
      cases hg : getTabGroupId op items with
      | some gid =>
        rw [onTabCreated_opener_group hr hg]
        rcases getAllTabIds_addToGroupPos pos gid tid items with hp | hp
        · exact hp.symm.nodup hcons
        · show (getAllTabIds (addToGroupPos pos gid tid items)).Nodup
          rw [hp]
          exact h
      | none =>
        rw [onTabCreated_root_opener hr hg]
        exact (getAllTabIds_rootAdd pos tid items).symm.nodup hcons

/-! No-empty-groups preservation for the compound operations. -/

theorem groupsNonempty_onTabCreated (pos : NewTabPos) (restoring : List Nat)
    (ev : CreateEvent) {items : List Item} (h : GroupsNonempty items) :
    GroupsNonempty (onTabCreated pos restoring ev items).1 := by
  obtain ⟨tid, opener⟩ := ev
  by_cases hr : tid ∈ restoring
  · rw [onTabCreated_skip hr]
    exact h
  · cases opener with
    | none =>
      rw [onTabCreated_root_none hr]
      exact groupsNonempty_rootAdd pos tid h
    | some op =>
      cases hg : getTabGroupId op items with
      | some gid =>
        rw [onTabCreated_opener_group hr hg]
        exact groupsNonempty_addToGroupPos pos gid tid h
      | none =>
        rw [onTabCreated_root_opener hr hg]
        exact groupsNonempty_rootAdd pos tid h

theorem groupsNonempty_createGroup (newId : String) (rand : Nat) {tabIds : List Nat}
    (hne : tabIds ≠ []) (name : String) {items : List Item} (h : GroupsNonempty items) :
    GroupsNonempty (createGroup newId rand tabIds name items) := by
  simp only [createGroup]
  refine groupsNonempty_spliceAt ?_ (groupsNonempty_foldl_remove tabIds h)
  intro g hg
  rcases List.mem_cons.mp hg with h2 | h2
  · injection h2 with h3
    subst h3
    exact hne
  · exact absurd h2 (List.not_mem_nil _)

theorem groupsNonempty_handleMultiDrag (tabIds : List Nat) (dest : Dest)
    {items : List Item} (h : GroupsNonempty items) :
    GroupsNonempty (handleMultiDrag tabIds dest items) := by
  cases dest with
  | root idx =>
    simp only [handleMultiDrag]
    refine groupsNonempty_spliceAt ?_ (groupsNonempty_foldl_remove _ h)
    intro g hg
    rcases List.mem_map.mp hg with ⟨x, _, h3⟩
    simp at h3
  | intoGroup gid idx =>
    simp only [handleMultiDrag]
    exact groupsNonempty_spliceIntoGroup gid idx _ (groupsNonempty_foldl_remove _ h)

theorem groupsNonempty_handleDragEndTab (t : Nat) (dest : Dest) {items : List Item}
    (h : GroupsNonempty items) : GroupsNonempty (handleDragEndTab t dest items) := by
  rw [handleDragEndTab_eq_multi]
  exact groupsNonempty_handleMultiDrag _ dest h

theorem groupsNonempty_syncItemsWithTabs (pos : NewTabPos) (live : List Nat)
    (items : List Item) : GroupsNonempty (syncItemsWithTabs pos live items) := by
  unfold syncItemsWithTabs addMissing
  exact groupsNonempty_foldl_rootAdd pos _ (groupsNonempty_syncRemove live items)

/-! The two state invariants hold in every reachable state. -/

theorem uniq_applyOp (op : Op) {items : List Item} (h : Uniq items)
    (hs : op.Allowed items) : Uniq (applyOp op items) := by
  cases op with
  | created pos restoring id opener =>
    exact uniq_onTabCreated pos restoring ⟨id, opener⟩ h hs
  | removeMany ids =>
    show Uniq (processRemoveQueue ids items)
    rw [Uniq, getAllTabIds_processRemoveQueue]
    exact h.filter _
  | dragSingle t dest => exact uniq_handleDragEndTab t dest h
  | dragMulti tabIds dest => exact uniq_handleMultiDrag hs dest h
  | mkGroup newId rand tabIds name => exact uniq_createGroup newId rand hs.1 name h
  | ungroup t gid =>
    show Uniq (ungroupTab t gid items)
    exact (getAllTabIds_ungroupTab_perm t gid items).symm.nodup h
  | dissolve gid =>
    show Uniq (dissolveGroup gid items)
    rw [Uniq, getAllTabIds_dissolveGroup]
    exact h
  | sync pos live => exact uniq_syncItemsWithTabs pos hs h

theorem groupsNonempty_applyOp (op : Op) {items : List Item} (h : GroupsNonempty items)
    (hs : op.Allowed items) : GroupsNonempty (applyOp op items) := by
  cases op with
  | created pos restoring id opener =>
    exact groupsNonempty_onTabCreated pos restoring ⟨id, opener⟩ h
  | removeMany ids => exact groupsNonempty_processRemoveQueue ids items
  | dragSingle t dest => exact groupsNonempty_handleDragEndTab t dest h
  | dragMulti tabIds dest => exact groupsNonempty_handleMultiDrag tabIds dest h
  | mkGroup newId rand tabIds name =>
    exact groupsNonempty_createGroup newId rand hs.2 name h
  | ungroup t gid => exact groupsNonempty_ungroupTab t gid h
  | dissolve gid => exact groupsNonempty_dissolveGroup gid h
  | sync pos live => exact groupsNonempty_syncItemsWithTabs pos live items

theorem uniq_reachable {items : List Item} (h : Reachable items) : Uniq items := by
  induction h with
  | init => exact List.nodup_nil
  | step op _ hs ih => exact uniq_applyOp op ih hs

theorem groupsNonempty_reachable {items : List Item} (h : Reachable items) :
    GroupsNonempty items := by
  induction h with
  | init => exact groupsNonempty_nil
  | step op _ hs ih => exact groupsNonempty_applyOp op ih hs

/-! Lemmas for the idempotence of the startup sync. -/

theorem syncRemove_eq_self {live : List Nat} {items : List Item}
    (hsub : ∀ id ∈ getAllTabIds items, id ∈ live) (hgn : GroupsNonempty items) :
    syncRemove live items = items := by
  induction items with
  | nil => rfl
  | cons it rest ih =>
    have hgnrest : GroupsNonempty rest := fun g hg => hgn g (List.mem_cons_of_mem _ hg)
    cases it with
    | tab id =>
      have hrest : ∀ i ∈ getAllTabIds rest, i ∈ live := by
        intro i hi
        exact hsub i (List.mem_cons_of_mem _ hi)
      have hidl : id ∈ live := hsub id (List.mem_cons_self _ _)
      simp [syncRemove, hidl, ih hrest hgnrest]
    | group g =>
      have hrest : ∀ i ∈ getAllTabIds rest, i ∈ live := by
        intro i hi
        exact hsub i (List.mem_append_right _ hi)
      have htabs : ∀ i ∈ g.tabs, i ∈ live := by
        intro i hi
        exact hsub i (List.mem_append_left _ hi)
      have hfilter : g.tabs.filter (fun i => decide (i ∈ live)) = g.tabs := by
        rw [List.filter_eq_self]
        intro a ha
        simpa using htabs a ha
      have hne : g.tabs ≠ [] := hgn g (List.mem_cons_self _ _)
      simp only [syncRemove, hfilter]
      rw [if_neg (by simpa [List.isEmpty_iff] using hne)]
      rw [ih hrest hgnrest]

theorem mem_getAllTabIds_addMissing (pos : NewTabPos) (live : List Nat)
    (items : List Item) {id : Nat} (hid : id ∈ live) :
    id ∈ getAllTabIds (addMissing pos live items) := by
  by_cases h : id ∈ getAllTabIds items
  · cases pos with
    | top =>
      rw [addMissing_top, getAllTabIds_append]
      exact List.mem_append_right _ h
    | bottom =>
      rw [addMissing_bottom, getAllTabIds_append]
      exact List.mem_append_left _ h
  · have hmiss : id ∈ live.filter (fun i => decide (i ∉ getAllTabIds items)) := by
      rw [List.mem_filter]
      exact ⟨hid, by simpa using h⟩
    cases pos with
    | top =>
      rw [addMissing_top, getAllTabIds_append, getAllTabIds_map_tab]
      exact List.mem_append_left _ (List.mem_reverse.mpr hmiss)
    | bottom =>
      rw [addMissing_bottom, getAllTabIds_append, getAllTabIds_map_tab]
      exact List.mem_append_right _ hmiss

theorem addMissing_eq_self (pos : NewTabPos) {live : List Nat} {items : List Item}
    (hsub : ∀ id ∈ live, id ∈ getAllTabIds items) :
    addMissing pos live items = items := by
  have hfe : live.filter (fun id => decide (id ∉ getAllTabIds items)) = [] := by
    rw [List.filter_eq_nil_iff]
    intro a ha
    simpa using hsub a ha
  simp only [addMissing]
  rw [hfe]
  rfl

theorem getAllTabIds_syncItemsWithTabs_subset (pos : NewTabPos) (live : List Nat)
    (items : List Item) :
    ∀ id ∈ getAllTabIds (syncItemsWithTabs pos live items), id ∈ live := by
  intro id hid
  unfold syncItemsWithTabs at hid
  cases pos with
  | top =>
    rw [addMissing_top, getAllTabIds_append, getAllTabIds_map_tab] at hid
    rcases List.mem_append.mp hid with h | h
    · exact (List.mem_filter.mp (List.mem_reverse.mp h)).1
    · rw [getAllTabIds_syncRemove] at h
      exact of_decide_eq_true (List.mem_filter.mp h).2
  | bottom =>
    rw [addMissing_bottom, getAllTabIds_append, getAllTabIds_map_tab] at hid
    rcases List.mem_append.mp hid with h | h
    · rw [getAllTabIds_syncRemove] at h
      exact of_decide_eq_true (List.mem_filter.mp h).2
    · exact (List.mem_filter.mp h).1

theorem syncItemsWithTabs_idem (pos : NewTabPos) (live : List Nat) (items : List Item) :
    syncItemsWithTabs pos live (syncItemsWithTabs pos live items)
      = syncItemsWithTabs pos live items := by
  have hsub := getAllTabIds_syncItemsWithTabs_subset pos live items
  have hgn : GroupsNonempty (syncItemsWithTabs pos live items) :=
    groupsNonempty_syncItemsWithTabs pos live items
  have hlive : ∀ id ∈ live, id ∈ getAllTabIds (syncItemsWithTabs pos live items) :=
    fun id hid => mem_getAllTabIds_addMissing pos live _ hid
  calc syncItemsWithTabs pos live (syncItemsWithTabs pos live items)
      = addMissing pos live (syncRemove live (syncItemsWithTabs pos live items)) := rfl
    _ = addMissing pos live (syncItemsWithTabs pos live items) := by
        rw [syncRemove_eq_self hsub hgn]
    _ = syncItemsWithTabs pos live items := addMissing_eq_self pos hlive

/-! Lemmas for the silent no-op behaviour of stale-reference operations. -/

theorem ungroupTab_no_group {gid : String} {items : List Item}
    (h : findGroup gid items = none) (t : Nat) : ungroupTab t gid items = items := by
  induction items with
  | nil => rfl
  | cons it rest ih =>
    cases it with
    | tab id =>
      have hrest : findGroup gid rest = none := h
      simp [ungroupTab, ih hrest]
    | group g =>
      have hgid : ¬ (g.id = gid) := by
        intro he
        simp [findGroup, he] at h
      have hrest : findGroup gid rest = none := by
        simpa [findGroup, hgid] using h
      simp [ungroupTab, hgid, ih hrest]

theorem dissolveGroup_no_group {gid : String} {items : List Item}
    (h : findGroup gid items = none) : dissolveGroup gid items = items := by
  induction items with
  | nil => rfl
  | cons it rest ih =>
    cases it with
    | tab id =>
      have hrest : findGroup gid rest = none := h
      simp [dissolveGroup, ih hrest]
    | group g =>
      have hgid : ¬ (g.id = gid) := by
        intro he
        simp [findGroup, he] at h
      have hrest : findGroup gid rest = none := by
        simpa [findGroup, hgid] using h
      simp [dissolveGroup, hgid, ih hrest]

theorem queueAutosave_no_group {gid : String} {items : List Item}
    (h : findGroup gid items = none) (queue : List String) :
    queueAutosave gid items queue = queue := by
  simp [queueAutosave, h]

theorem ungroupTab_tab_not_mem {gid : String} {items : List Item} {g : Group}
    (h : findGroup gid items = some g) {t : Nat} (ht : t ∉ g.tabs) :
    ungroupTab t gid items = items := by
  induction items with
  | nil => simp [findGroup] at h
  | cons it rest ih =>
    cases it with
    | tab id =>
      have hrest : findGroup gid rest = some g := h
      simp [ungroupTab, ih hrest]
    | group g0 =>
      by_cases hgid : g0.id = gid
      · have hg0 : g0 = g := by
          have h2 : findGroup gid (Item.group g0 :: rest) = some g0 := by
            simp [findGroup, hgid]
          rw [h2] at h
          exact Option.some.inj h
        subst hg0
        simp [ungroupTab, hgid, ht]
      · have hrest : findGroup gid rest = some g := by
          simpa [findGroup, hgid] using h
        simp [ungroupTab, hgid, ih hrest]

/-! Lemmas for the session-restore idempotence redirect. -/

theorem findLinkedGroup_isSome_of_mem {sid : String} {items : List Item} {g : Group}
    (hmem : Item.group g ∈ items) (hlink : g.linkedSessionId = some sid) :
    (findLinkedGroup sid items).isSome := by
  induction items with
  | nil => cases hmem
  | cons it rest ih =>
    cases it with
    | tab id =>
      rcases List.mem_cons.mp hmem with h2 | h2
      · simp at h2
      · simpa [findLinkedGroup] using ih h2
    | group g0 =>
      by_cases hl : g0.linkedSessionId = some sid
      · simp [findLinkedGroup, hl]
      · rcases List.mem_cons.mp hmem with h2 | h2
        · injection h2 with h3
          subst h3
          exact absurd hlink hl
        · simpa [findLinkedGroup, hl] using ih h2

theorem restoreSession_linked_noop {savedSessions : String → Option Session}
    {sessionId : String} {s : Session} (hs : savedSessions sessionId = some s)
    (newGid : String) (createResults : List (Option Nat)) {items : List Item}
    {g : Group} (hmem : Item.group g ∈ items)
    (hlink : g.linkedSessionId = some sessionId) :
    restoreSession savedSessions sessionId newGid createResults items = (items, []) := by
  have hfind := findLinkedGroup_isSome_of_mem hmem hlink
  rcases Option.isSome_iff_exists.mp hfind with ⟨g0, hg0⟩
  by_cases he : s.tabs.isEmpty
  · simp [restoreSession, hs, he]
  · simp [restoreSession, hs, he, hg0]

/-! Lemmas about the group color assignment. -/

theorem indexOf_append_not_mem {a : String} {l₁ : List String} (h : a ∉ l₁)
    (l₂ : List String) :
    List.indexOf a (l₁ ++ l₂) = l₁.length + List.indexOf a l₂ := by
  induction l₁ with
  | nil => simp
  | cons b t ih =>
    have hb : b ≠ a := by
      intro he
      apply h
      rw [he]
      exact List.mem_cons_self _ _
    have ht : a ∉ t := fun hm => h (List.mem_cons_of_mem _ hm)
    rw [List.cons_append, List.indexOf_cons_ne _ hb, ih ht]
    simp only [List.length_cons]
    omega

theorem getNextGroupColor_spec_unused {items : List Item} (rand : Nat)
    (hex : ∃ c ∈ GROUP_COLORS, c ∉ usedColors items) :
    getNextGroupColor items rand ∈ GROUP_COLORS ∧
    getNextGroupColor items rand ∉ usedColors items ∧
    ∀ c ∈ GROUP_COLORS, c ∉ usedColors items →
      List.indexOf (getNextGroupColor items rand) GROUP_COLORS
        ≤ List.indexOf c GROUP_COLORS := by
  have hsome : (GROUP_COLORS.find? (fun x => decide (x ∉ usedColors items))).isSome := by
    rw [List.find?_isSome]
    rcases hex with ⟨c, hc1, hc2⟩
    exact ⟨c, hc1, by simpa using hc2⟩
  rcases Option.isSome_iff_exists.mp hsome with ⟨c0, hc0⟩
  have hres : getNextGroupColor items rand = c0 := by
    simp only [getNextGroupColor]
    rw [hc0]
  have hc0mem : c0 ∈ GROUP_COLORS := List.mem_of_find?_eq_some hc0
  rcases List.find?_eq_some.mp hc0 with ⟨hp, as, bs, heq, hall⟩
  have hc0un : c0 ∉ usedColors items := of_decide_eq_true hp
  refine ⟨hres ▸ hc0mem, hres ▸ hc0un, ?_⟩
  intro c hc hcun
  rw [hres]
  have hc0nas : c0 ∉ as := by
    intro hmem
    have h3 := hall c0 hmem
    rw [hp] at h3
    simp at h3
  have hcnas : c ∉ as := by
    intro hmem
    have h3 := hall c hmem
    simp at h3
    exact hcun h3
  rw [heq, indexOf_append_not_mem hc0nas, indexOf_append_not_mem hcnas]
  have h0 : List.indexOf c0 (c0 :: bs) = 0 := List.indexOf_cons_self _ _
  omega

theorem getNextGroupColor_spec_all_used {items : List Item} (rand : Nat)
    (hall : ∀ c ∈ GROUP_COLORS, c ∈ usedColors items) :
    getNextGroupColor items rand ∈ GROUP_COLORS := by
  have hnone : GROUP_COLORS.find? (fun x => decide (x ∉ usedColors items)) = none := by
    rw [List.find?_eq_none]
    intro x hx
    simpa using hall x hx
  have hlt : rand % GROUP_COLORS.length < GROUP_COLORS.length :=
    Nat.mod_lt _ (by decide)
  simp only [getNextGroupColor, hnone]
  rw [List.getD_eq_getElem _ _ hlt]
  exact List.getElem_mem hlt

/-! Lemmas about the insertion position of a created group. -/

theorem rootIndexOf_append_tab {t : Nat} {pre : List Item}
    (h : t ∉ getAllTabIds pre) (post : List Item) :
    rootIndexOf t (pre ++ Item.tab t :: post) = some pre.length := by
  induction pre with
  | nil => simp [rootIndexOf]
  | cons it rest ih =>
    cases it with
    | tab id =>
      have hid : ¬ (id = t) := by
        intro he
        subst he
        exact h (List.mem_cons_self _ _)
      have hrest : t ∉ getAllTabIds rest := fun hm => h (List.mem_cons_of_mem _ hm)
      simp [rootIndexOf, hid, ih hrest]
    | group g =>
      have hrest : t ∉ getAllTabIds rest := fun hm => h (List.mem_append_right _ hm)
      simp [rootIndexOf, ih hrest]

theorem removeTabFromItems_append_tab {t : Nat} {pre : List Item}
    (h : t ∉ getAllTabIds pre) (post : List Item) :
    removeTabFromItems t (pre ++ Item.tab t :: post) = pre ++ post := by
  induction pre with
  | nil => simp [removeTabFromItems]
  | cons it rest ih =>
    cases it with
    | tab id =>
      have hid : ¬ (id = t) := by
        intro he
        subst he
        exact h (List.mem_cons_self _ _)
      have hrest : t ∉ getAllTabIds rest := fun hm => h (List.mem_cons_of_mem _ hm)
      simp [removeTabFromItems, hid, ih hrest]
    | group g =>
      have hgt : t ∉ g.tabs := fun hm => h (List.mem_append_left _ hm)
      have hrest : t ∉ getAllTabIds rest := fun hm => h (List.mem_append_right _ hm)
      simp [removeTabFromItems, hgt, ih hrest]

theorem createGroup_single_position (newId : String) (rand : Nat) (t : Nat)
    (name : String) {pre : List Item} (h : t ∉ getAllTabIds pre) (post : List Item) :
    createGroup newId rand [t] name (pre ++ Item.tab t :: post)
      = pre ++ Item.group
          { id := newId, name := name,
            color := getNextGroupColor (pre ++ Item.tab t :: post) rand,
            tabs := [t] } :: post := by
  have hroot := rootIndexOf_append_tab h post
  have hrem := removeTabFromItems_append_tab h post
  simp only [createGroup, createGroupInsertIndex, List.foldl_cons, List.foldl_nil,
    hroot, hrem]
  have hmin : min (pre ++ Item.tab t :: post).length pre.length = pre.length := by
    apply Nat.min_eq_right
    simp only [List.length_append, List.length_cons]
    omega
  rw [hmin]
  simp only [spliceAt]
  rw [List.take_left, List.drop_left]
  simp

theorem length_removeTabFromItems_le (t : Nat) (items : List Item) :
    (removeTabFromItems t items).length ≤ items.length := by
  induction items with
  | nil => simp [removeTabFromItems]
  | cons it rest ih =>
    cases it with
    | tab id =>
      by_cases h : id = t
      · simp only [removeTabFromItems, if_pos h, List.length_cons]
        omega
      · simp only [removeTabFromItems, if_neg h, List.length_cons]
        omega
    | group g =>
      by_cases h : t ∈ g.tabs
      · by_cases he : (g.tabs.erase t).isEmpty
        · simp only [removeTabFromItems, if_pos h, if_pos he, List.length_cons]
          omega
        · simp only [removeTabFromItems, if_pos h, if_neg he, List.length_cons]
          omega
      · simp only [removeTabFromItems, if_neg h, List.length_cons]
        omega

theorem length_foldl_remove_le (ts : List Nat) (items : List Item) :
    (ts.foldl (fun acc id => removeTabFromItems id acc) items).length
      ≤ items.length := by
  induction ts generalizing items with
  | nil => exact le_refl _
  | cons a t ih =>
    simp only [List.foldl_cons]
    exact le_trans (ih (removeTabFromItems a items)) (length_removeTabFromItems_le a items)

theorem createGroupInsertIndex_no_root {tabIds : List Nat} {items : List Item}
    (hroot : ∀ t ∈ tabIds, rootIndexOf t items = none) :
    createGroupInsertIndex tabIds items = items.length := by
  unfold createGroupInsertIndex
  have h : ∀ (l : List Nat) (acc : Nat), (∀ t ∈ l, rootIndexOf t items = none) →
      l.foldl
        (fun acc tid =>
          match rootIndexOf tid items with
          | some i => min acc i
          | none => acc)
        acc = acc := by
    intro l
    induction l with
    | nil => intro acc _; rfl
    | cons a t ih =>
      intro acc hl
      simp only [List.foldl_cons]
      rw [hl a (List.mem_cons_self _ _)]
      exact ih acc (fun x hx => hl x (List.mem_cons_of_mem _ hx))
  exact h tabIds items.length hroot

theorem createGroup_no_root_append (newId : String) (rand : Nat) {tabIds : List Nat}
    {items : List Item} (hroot : ∀ t ∈ tabIds, rootIndexOf t items = none)
    (name : String) :
    createGroup newId rand tabIds name items
      = (tabIds.foldl (fun acc tid => removeTabFromItems tid acc) items)
          ++ [Item.group
              { id := newId, name := name,
                color := getNextGroupColor items rand, tabs := tabIds }] := by
  simp only [createGroup]
  rw [createGroupInsertIndex_no_root hroot]
  simp only [spliceAt]
  rw [List.take_of_length_le (length_foldl_remove_le tabIds items),
    List.drop_eq_nil_of_le (length_foldl_remove_le tabIds items)]
  simp

/-! Lemmas about the keyboard-navigation focus movement. -/

theorem list_get_congr {l : List Nat} {i j : Nat} (he : i = j) (hi : i < l.length) :
    l.get ⟨i, hi⟩ = l.get ⟨j, he ▸ hi⟩ := by
  subst he
  rfl

theorem curIndex_invalid {allIds : List Nat} {focus : Option Nat}
    (hinv : focus = none ∨ ∃ f, focus = some f ∧ f ∉ allIds) :
    curIndex allIds focus = -1 := by
  rcases hinv with rfl | ⟨f, rfl, hf⟩
  · rfl
  · simp [curIndex, hf]

theorem keyNav_invalid_down {items : List Item} (hne : getAllTabIds items ≠ [])
    {focus : Option Nat} (hinv : curIndex (getAllTabIds items) focus = -1) :
    keyNav items focus .down = some ((getAllTabIds items).head hne) := by
  have hemp : ¬ (getAllTabIds items).isEmpty = true := by
    rw [List.isEmpty_iff]
    exact hne
  have hlen : 0 < (getAllTabIds items).length := List.length_pos.mpr hne
  have hnav : navIndex (getAllTabIds items).length (-1) .down = 0 := by
    simp only [navIndex]
    rw [if_pos (by omega)]
    norm_num
  simp only [keyNav, hinv, hnav, if_neg hemp]
  rw [dif_pos ⟨le_refl 0, by simpa using hlen⟩]
  exact congrArg some (List.get_mk_zero hlen)

theorem keyNav_invalid_up {items : List Item} (hne : getAllTabIds items ≠ [])
    {focus : Option Nat} (hinv : curIndex (getAllTabIds items) focus = -1) :
    keyNav items focus .up = some ((getAllTabIds items).getLast hne) := by
  have hemp : ¬ (getAllTabIds items).isEmpty = true := by
    rw [List.isEmpty_iff]
    exact hne
  have hlen : 0 < (getAllTabIds items).length := List.length_pos.mpr hne
  have hnav : navIndex (getAllTabIds items).length (-1) .up
      = ((getAllTabIds items).length : Int) - 1 := by
    simp only [navIndex]
    rw [if_neg (by omega)]
    simp
  simp only [keyNav, hinv, hnav, if_neg hemp]
  have hc2 : (0:Int) ≤ ((getAllTabIds items).length : Int) - 1 := by omega
  have hc3 : (((getAllTabIds items).length : Int) - 1).toNat
      < (getAllTabIds items).length := by omega
  rw [dif_pos ⟨hc2, hc3⟩]
  have hidx : (((getAllTabIds items).length : Int) - 1).toNat
      = (getAllTabIds items).length - 1 := by omega
  have h3 := list_get_congr hidx hc3
  rw [h3, List.getLast_eq_getElem, List.get_eq_getElem]

theorem keyNav_head_up {items : List Item} (hne : getAllTabIds items ≠ [])
    (hnd : (getAllTabIds items).Nodup) :
    keyNav items (some ((getAllTabIds items).head hne)) .up
      = some ((getAllTabIds items).head hne) := by
  have hemp : ¬ (getAllTabIds items).isEmpty = true := by
    rw [List.isEmpty_iff]
    exact hne
  have hlen : 0 < (getAllTabIds items).length := List.length_pos.mpr hne
  have hmem : (getAllTabIds items).head hne ∈ getAllTabIds items := List.head_mem hne
  have hidx0 : List.indexOf ((getAllTabIds items).head hne) (getAllTabIds items) = 0 := by
    rw [List.head_eq_getElem]
    exact List.indexOf_getElem hnd 0 hlen
  have hcur : curIndex (getAllTabIds items) (some ((getAllTabIds items).head hne)) = 0 := by
    simp only [curIndex, if_pos hmem, hidx0, Nat.cast_zero]
  have hnav : navIndex (getAllTabIds items).length 0 .up = 0 := by
    simp only [navIndex]
    rw [if_neg (by omega), if_neg (by omega)]
  simp only [keyNav, hcur, hnav, if_neg hemp]
  rw [dif_pos ⟨le_refl 0, by simpa using hlen⟩]
  exact congrArg some (List.get_mk_zero hlen)

theorem keyNav_last_down {items : List Item} (hne : getAllTabIds items ≠ [])
    (hnd : (getAllTabIds items).Nodup) :
    keyNav items (some ((getAllTabIds items).getLast hne)) .down
      = some ((getAllTabIds items).getLast hne) := by
  have hemp : ¬ (getAllTabIds items).isEmpty = true := by
    rw [List.isEmpty_iff]
    exact hne
  have hlen : 0 < (getAllTabIds items).length := List.length_pos.mpr hne
  have hmem : (getAllTabIds items).getLast hne ∈ getAllTabIds items :=
    List.getLast_mem hne
  have hlast := List.getLast_eq_getElem (getAllTabIds items) hne
  have hidx : List.indexOf ((getAllTabIds items).getLast hne) (getAllTabIds items)
      = (getAllTabIds items).length - 1 := by
    rw [hlast]
    exact List.indexOf_getElem hnd _ (by omega)
  have hcur : curIndex (getAllTabIds items) (some ((getAllTabIds items).getLast hne))
      = ((getAllTabIds items).length : Int) - 1 := by
    simp only [curIndex, if_pos hmem, hidx]
    omega
  have hnav : navIndex (getAllTabIds items).length
      (((getAllTabIds items).length : Int) - 1) .down
      = ((getAllTabIds items).length : Int) - 1 := by
    simp only [navIndex]
    rw [if_neg (by omega)]
  simp only [keyNav, hcur, hnav, if_neg hemp]
  have hc2 : (0:Int) ≤ ((getAllTabIds items).length : Int) - 1 := by omega
  have hc3 : (((getAllTabIds items).length : Int) - 1).toNat
      < (getAllTabIds items).length := by omega
  rw [dif_pos ⟨hc2, hc3⟩]
  have hidx2 : (((getAllTabIds items).length : Int) - 1).toNat
      = (getAllTabIds items).length - 1 := by omega
  have h3 := list_get_congr hidx2 hc3
  rw [h3, hlast, List.get_eq_getElem]

/-! Further helpers for the multi-drag and createGroup claims. -/

theorem handleMultiDrag_perm_indep {items : List Item} {tabIds tabIds' : List Nat}
    (hperm : tabIds'.Perm tabIds) (hall : (getAllTabIds items).Nodup)
    (hnd : tabIds.Nodup) (hsub : ∀ a ∈ tabIds, a ∈ getAllTabIds items) (dest : Dest) :
    handleMultiDrag tabIds' dest items = handleMultiDrag tabIds dest items := by
  have hnd' : tabIds'.Nodup := hperm.symm.nodup hnd
  have hsub' : ∀ a ∈ tabIds', a ∈ getAllTabIds items :=
    fun a ha => hsub a (hperm.mem_iff.mp ha)
  have hfe : (getAllTabIds items).filter (fun a => decide (a ∈ tabIds'))
      = (getAllTabIds items).filter (fun a => decide (a ∈ tabIds)) := by
    apply List.filter_congr
    intro a _
    simp only [decide_eq_decide]
    exact hperm.mem_iff
  have hsort : sortTabIds (getAllTabIds items) tabIds'
      = sortTabIds (getAllTabIds items) tabIds := by
    rw [sortTabIds_eq_filter hall hnd' hsub', sortTabIds_eq_filter hall hnd hsub, hfe]
  cases dest with
  | root idx => simp only [handleMultiDrag, hsort]
  | intoGroup gid idx => simp only [handleMultiDrag, hsort]

theorem self_mem_spliceAt (idx : Nat) (x : α) (l : List α) : x ∈ spliceAt idx [x] l := by
  simp [spliceAt]

theorem mem_createGroup_self (newId : String) (rand : Nat) (tabIds : List Nat)
    (name : String) (items : List Item) :
    Item.group
        { id := newId, name := name,
          color := getNextGroupColor items rand, tabs := tabIds }
      ∈ createGroup newId rand tabIds name items := by
  simp only [createGroup]
  exact self_mem_spliceAt _ _ _

theorem getAllTabIds_createGroup_perm (newId : String) (rand : Nat) {tabIds : List Nat}
    (hnd : tabIds.Nodup) (name : String) {items : List Item} (h : Uniq items)
    (hsub : ∀ t ∈ tabIds, t ∈ getAllTabIds items) :
    (getAllTabIds (createGroup newId rand tabIds name items)).Perm
      (getAllTabIds items) := by
  simp only [createGroup]
  refine (getAllTabIds_spliceAt_perm _ _ _).trans ?_
  rw [getAllTabIds_foldl_remove]
  have hflat1 : getAllTabIds [Item.group
      { id := newId, name := name, color := getNextGroupColor items rand,
        tabs := tabIds }] = tabIds ++ [] := by
    simp [getAllTabIds]
  rw [hflat1]
  simp only [List.append_nil]
  exact perm_append_foldl_erase h tabIds hnd hsub

/-! The claims. -/

/-- C1: for every reachable state of the Ordering Model (any state produced
from the initial empty model by a sequence of the operations: tab-created
handling with fresh tab ids, batched tab removal, single- and multi-tab
drag moves, createGroup, ungroupTab, dissolveGroup, and startup sync),
every tab identifier occurs at most once across the root sequence and all
groups' tab lists together. -/
theorem claim_C1_uniqueness (items : List Item) (h : Reachable items) : Uniq items :=
  uniq_reachable h

/-- Witness for C1: uniqueness at a concrete reachable two-tab state. -/
theorem claim_C1_uniqueness_witness : Uniq [Item.tab 5, Item.tab 7] := by
  have h0 : Reachable [] := Reachable.init
  have h1 : Reachable (applyOp (Op.created .bottom [] 5 none) []) :=
    Reachable.step _ h0 (by show (5 : Nat) ∉ getAllTabIds []; decide)
  have h2 : applyOp (Op.created .bottom [] 5 none) [] = [Item.tab 5] := by decide
  rw [h2] at h1
  have h3 : Reachable (applyOp (Op.created .bottom [] 7 none) [Item.tab 5]) :=
    Reachable.step _ h1 (by show (7 : Nat) ∉ getAllTabIds [Item.tab 5]; decide)
  have h4 : applyOp (Op.created .bottom [] 7 none) [Item.tab 5]
      = [Item.tab 5, Item.tab 7] := by decide
  rw [h4] at h3
  exact claim_C1_uniqueness _ h3

/-- C2: for every reachable state of the Ordering Model (same operation set
as the uniqueness claim), every group present in the model has a non-empty
tabs sequence: any operation whose removal step empties a group's tab list
deletes that group in the same step. -/
theorem claim_C2_no_empty_groups (items : List Item) (h : Reachable items) :
    GroupsNonempty items :=
  groupsNonempty_reachable h

/-- Witness for C2: the invariant at a concrete reachable one-group state. -/
theorem claim_C2_no_empty_groups_witness :
    GroupsNonempty [Item.group
      { id := "g", name := "New Group", color := "#e91e63", tabs := [4] }] := by
  have h0 : Reachable [] := Reachable.init
  have h1 : Reachable (applyOp (Op.created .bottom [] 4 none) []) :=
    Reachable.step _ h0 (by show (4 : Nat) ∉ getAllTabIds []; decide)
  have h2 : applyOp (Op.created .bottom [] 4 none) [] = [Item.tab 4] := by decide
  rw [h2] at h1
  have h3 : Reachable (applyOp (Op.mkGroup "g" 0 [4] "New Group") [Item.tab 4]) :=
    Reachable.step _ h1
      (by show ([4] : List Nat).Nodup ∧ ([4] : List Nat) ≠ []; decide)
  have h4 : applyOp (Op.mkGroup "g" 0 [4] "New Group") [Item.tab 4]
      = [Item.group { id := "g", name := "New Group", color := "#e91e63", tabs := [4] }] := by
    decide
  rw [h4] at h3
  exact claim_C2_no_empty_groups _ h3

/-- C3 counterexample: with the `'top'` setting and live enumeration order
[1, 2] over the empty model, both tabs are newly added and the result lists
them as [2, 1] — the reverse of the enumeration order the claim states. -/
theorem claim_C3_counterexample :
    getAllTabIds (syncItemsWithTabs .top [1, 2] []) = [2, 1]
      ∧ getAllTabIds (syncItemsWithTabs .top [1, 2] []) ≠ [1, 2] := by
  decide

/-- C3 (amended): startup sync first removes from the persisted model every
tab reference not in the live list, deleting groups that become empty, then
adds every live tab absent from the model at the position given by the
setting; with `'bottom'` the added tabs are appended in the live
enumeration order, while with `'top'` each is prepended in turn, so they
appear at the front in reverse enumeration order. -/
theorem claim_C3_sync_shape (live : List Nat) (O : List Item) :
    getAllTabIds (syncRemove live O)
        = (getAllTabIds O).filter (fun id => decide (id ∈ live))
    ∧ GroupsNonempty (syncRemove live O)
    ∧ syncItemsWithTabs .bottom live O
        = syncRemove live O
            ++ ((live.filter
                  (fun id => decide (id ∉ getAllTabIds (syncRemove live O)))).map
                Item.tab)
    ∧ syncItemsWithTabs .top live O
        = ((live.filter
              (fun id => decide (id ∉ getAllTabIds (syncRemove live O)))).reverse.map
            Item.tab)
            ++ syncRemove live O :=
  ⟨getAllTabIds_syncRemove live O, groupsNonempty_syncRemove live O,
    addMissing_bottom live _, addMissing_top live _⟩

/-- Witness for C3: the no-empty-groups component of the sync shape at a
concrete input. -/
theorem claim_C3_sync_shape_witness :
    ({ id := "g", name := "n", color := "c", tabs := [2] } : Group).tabs ≠ [] := by
  have h := claim_C3_sync_shape [2]
    [Item.group { id := "g", name := "n", color := "c", tabs := [1, 2] }]
  exact h.2.1 _ (by decide)

/-- C4: the batch removal pass removes each queued id wherever it is (root
or inside a group) and deletes any group whose tab list becomes empty; in
particular, on root = [T1, T2, G1{T3, T4}], removing T3 yields
[T1, T2, G1{T4}], and then removing T4 yields [T1, T2] with G1 gone. -/
theorem claim_C4_batch_removal :
    (∀ (rem : List Nat) (items : List Item),
        getAllTabIds (processRemoveQueue rem items)
          = (getAllTabIds items).filter (fun id => decide (id ∉ rem)))
    ∧ (∀ (rem : List Nat) (items : List Item),
        GroupsNonempty (processRemoveQueue rem items))
    ∧ processRemoveQueue [3] [Item.tab 1, Item.tab 2,
          Item.group { id := "g1", name := "G1", color := "#e91e63", tabs := [3, 4] }]
        = [Item.tab 1, Item.tab 2,
            Item.group { id := "g1", name := "G1", color := "#e91e63", tabs := [4] }]
    ∧ processRemoveQueue [4] [Item.tab 1, Item.tab 2,
          Item.group { id := "g1", name := "G1", color := "#e91e63", tabs := [4] }]
        = [Item.tab 1, Item.tab 2] :=
  ⟨getAllTabIds_processRemoveQueue, groupsNonempty_processRemoveQueue,
    by decide, by decide⟩

/-- Witness for C4: the no-empty-groups component at a concrete input. -/
theorem claim_C4_batch_removal_witness :
    ({ id := "h", name := "H", color := "c", tabs := [9] } : Group).tabs ≠ [] :=
  claim_C4_batch_removal.2.1 [8]
    [Item.group { id := "h", name := "H", color := "c", tabs := [8, 9] }]
    _ (by decide)

/-- C5: for a duplicate-free selection of tabs present in the model, the
multi-tab drag re-sorts the selection into its current flatten() order
(the flattened order filtered to the selected ids) before reinsertion, so
the result is independent of the order in which the tabs were selected;
with structural order A, B, C and selection order {C, A, B} dropped at the
root, the moved block is A, B, C. -/
theorem claim_C5_multi_drag_order :
    (∀ (items : List Item) (tabIds : List Nat), (getAllTabIds items).Nodup →
        tabIds.Nodup → (∀ a ∈ tabIds, a ∈ getAllTabIds items) →
        sortTabIds (getAllTabIds items) tabIds
            = (getAllTabIds items).filter (fun a => decide (a ∈ tabIds))
          ∧ ∀ (tabIds' : List Nat) (dest : Dest), tabIds'.Perm tabIds →
              handleMultiDrag tabIds' dest items = handleMultiDrag tabIds dest items)
    ∧ handleMultiDrag [3, 1, 2] (.root 0) [Item.tab 1, Item.tab 2, Item.tab 3]
        = [Item.tab 1, Item.tab 2, Item.tab 3] := by
  constructor
  · intro items tabIds hall hnd hsub
    exact ⟨sortTabIds_eq_filter hall hnd hsub,
      fun tabIds' dest hperm => handleMultiDrag_perm_indep hperm hall hnd hsub dest⟩
  · decide

/-- Witness for C5: sort-as-filter and selection-order independence at a
concrete input. -/
theorem claim_C5_multi_drag_order_witness :
    sortTabIds (getAllTabIds [Item.tab 1, Item.tab 2, Item.tab 3]) [3, 1]
        = (getAllTabIds [Item.tab 1, Item.tab 2, Item.tab 3]).filter
            (fun a => decide (a ∈ [3, 1]))
    ∧ handleMultiDrag [1, 3] (.root 0) [Item.tab 1, Item.tab 2, Item.tab 3]
        = handleMultiDrag [3, 1] (.root 0) [Item.tab 1, Item.tab 2, Item.tab 3] := by
  have h := claim_C5_multi_drag_order.1 [Item.tab 1, Item.tab 2, Item.tab 3] [3, 1]
    (by decide) (by decide) (by decide)
  exact ⟨h.1, h.2 [1, 3] (.root 0) (by decide)⟩

/-- C6 counterexample: the original claim inserts the new group "at the
position of the first selected tab", but createGroup computes the insertion
index as the minimum root index of the selected tabs, before removal, and
tabs inside groups contribute no root index.  Selecting the grouped tab 10
(the structurally first selected tab, in the group at item position 0)
together with root tab 2 on [G(10), T2, T3] yields [T3, G2(10, 2)] — the
new group lands after T3, not at the first selected tab's position — and a
singleton selection of a grouped tab is appended at the very end. -/
theorem claim_C6_counterexample :
    createGroup "n" 0 [10, 2] "N"
        [Item.group { id := "g", name := "G", color := "#9c27b0", tabs := [10] },
          Item.tab 2, Item.tab 3]
      = [Item.tab 3,
          Item.group { id := "n", name := "N", color := "#e91e63", tabs := [10, 2] }]
    ∧ createGroup "n" 0 [10, 2] "N"
        [Item.group { id := "g", name := "G", color := "#9c27b0", tabs := [10] },
          Item.tab 2, Item.tab 3]
      ≠ [Item.group { id := "n", name := "N", color := "#e91e63", tabs := [10, 2] },
          Item.tab 3]
    ∧ createGroup "n2" 0 [10] "N"
        [Item.group { id := "g", name := "G", color := "#9c27b0", tabs := [10, 11] },
          Item.tab 2]
      = [Item.group { id := "g", name := "G", color := "#9c27b0", tabs := [11] },
          Item.tab 2,
          Item.group { id := "n2", name := "N", color := "#e91e63", tabs := [10] }] := by
  decide

/-- C6 (amended): createGroup assigns the first palette color not used by
any existing group (a palette color drawn at random when all are used),
removes each given tab from its current position while appending it to the
new group's tabs (in the given order), and preserves the flattened tab
content; the group is spliced in at the minimum first-root-index of the
selected tabs, computed before removal and clamped to the post-removal
length: for a single selected root tab this is that tab's position — e.g.
createGroup([T2], "Work") on root [T1, T2, T3] yields [T1, G(T2), T3] —
while a selection none of whose tabs sits at the root contributes no root
index, so the group is appended at the end. -/
theorem claim_C6_createGroup :
    (∀ (items : List Item) (rand : Nat),
        (∃ c ∈ GROUP_COLORS, c ∉ usedColors items) →
          getNextGroupColor items rand ∈ GROUP_COLORS
          ∧ getNextGroupColor items rand ∉ usedColors items
          ∧ ∀ c ∈ GROUP_COLORS, c ∉ usedColors items →
              List.indexOf (getNextGroupColor items rand) GROUP_COLORS
                ≤ List.indexOf c GROUP_COLORS)
    ∧ (∀ (items : List Item) (rand : Nat),
        (∀ c ∈ GROUP_COLORS, c ∈ usedColors items) →
          getNextGroupColor items rand ∈ GROUP_COLORS)
    ∧ (∀ (newId : String) (rand : Nat) (tabIds : List Nat) (name : String)
          (items : List Item),
        Item.group
            { id := newId, name := name,
              color := getNextGroupColor items rand, tabs := tabIds }
          ∈ createGroup newId rand tabIds name items)
    ∧ (∀ (newId : String) (rand : Nat) (tabIds : List Nat) (name : String)
          (items : List Item), Uniq items → tabIds.Nodup →
        (∀ t ∈ tabIds, t ∈ getAllTabIds items) →
          (getAllTabIds (createGroup newId rand tabIds name items)).Perm
            (getAllTabIds items))
    ∧ (∀ (newId : String) (rand : Nat) (t : Nat) (name : String)
          (pre post : List Item), t ∉ getAllTabIds pre →
        createGroup newId rand [t] name (pre ++ Item.tab t :: post)
          = pre ++ Item.group
              { id := newId, name := name,
                color := getNextGroupColor (pre ++ Item.tab t :: post) rand,
                tabs := [t] } :: post)
    ∧ (∀ (newId : String) (rand : Nat) (tabIds : List Nat) (name : String)
          (items : List Item), (∀ t ∈ tabIds, rootIndexOf t items = none) →
        createGroup newId rand tabIds name items
          = (tabIds.foldl (fun acc tid => removeTabFromItems tid acc) items)
              ++ [Item.group
                  { id := newId, name := name,
                    color := getNextGroupColor items rand, tabs := tabIds }])
    ∧ createGroup "g9" 0 [2] "Work" [Item.tab 1, Item.tab 2, Item.tab 3]
        = [Item.tab 1,
            Item.group { id := "g9", name := "Work", color := "#e91e63", tabs := [2] },
            Item.tab 3] := by
  refine ⟨?_, ?_, ?_, ?_, ?_, ?_, by decide⟩
  · intro items rand hex
    exact getNextGroupColor_spec_unused rand hex
  · intro items rand hall
    exact getNextGroupColor_spec_all_used rand hall
  · intro newId rand tabIds name items
    exact mem_createGroup_self newId rand tabIds name items
  · intro newId rand tabIds name items h hnd hsub
    exact getAllTabIds_createGroup_perm newId rand hnd name h hsub
  · intro newId rand t name pre post h
    exact createGroup_single_position newId rand t name h post
  · intro newId rand tabIds name items hroot
    exact createGroup_no_root_append newId rand hroot name

/-- Witness for C6: color choice, root-tab placement and grouped-selection
placement at concrete inputs. -/
theorem claim_C6_createGroup_witness :
    (getNextGroupColor [Item.tab 1, Item.tab 2, Item.tab 3] 0 ∈ GROUP_COLORS
      ∧ getNextGroupColor [Item.tab 1, Item.tab 2, Item.tab 3] 0
          ∉ usedColors [Item.tab 1, Item.tab 2, Item.tab 3]
      ∧ ∀ c ∈ GROUP_COLORS, c ∉ usedColors [Item.tab 1, Item.tab 2, Item.tab 3] →
          List.indexOf (getNextGroupColor [Item.tab 1, Item.tab 2, Item.tab 3] 0)
              GROUP_COLORS
            ≤ List.indexOf c GROUP_COLORS)
    ∧ createGroup "w" 3 [2] "Work" ([Item.tab 1] ++ Item.tab 2 :: [Item.tab 3])
        = [Item.tab 1] ++ Item.group
            { id := "w", name := "Work",
              color := getNextGroupColor ([Item.tab 1] ++ Item.tab 2 :: [Item.tab 3]) 3,
              tabs := [2] } :: [Item.tab 3]
    ∧ createGroup "w2" 1 [8] "Work2"
          [Item.group { id := "gw", name := "GW", color := "#9c27b0", tabs := [8, 9] }]
        = ([8].foldl (fun acc tid => removeTabFromItems tid acc)
              [Item.group { id := "gw", name := "GW", color := "#9c27b0", tabs := [8, 9] }])
            ++ [Item.group
                { id := "w2", name := "Work2",
                  color := getNextGroupColor
                    [Item.group { id := "gw", name := "GW", color := "#9c27b0", tabs := [8, 9] }] 1,
                  tabs := [8] }] :=
  ⟨claim_C6_createGroup.1 [Item.tab 1, Item.tab 2, Item.tab 3] 0
      ⟨"#e91e63", by decide, by decide⟩,
    claim_C6_createGroup.2.2.2.2.1 "w" 3 2 "Work" [Item.tab 1] [Item.tab 3] (by decide),
    claim_C6_createGroup.2.2.2.2.2.1 "w2" 1 [8] "Work2"
      [Item.group { id := "gw", name := "GW", color := "#9c27b0", tabs := [8, 9] }]
      (by decide)⟩

/-- C7: if the Ordering Model contains a group whose linkedSessionId equals
the saved session's id, restoring that session leaves the Ordering Model
unchanged and issues no tab-creation commands; hence restoring the same
saved session twice while its group is still open creates zero new tabs. -/
theorem claim_C7_restore_idempotent
    (savedSessions : String → Option Session) (sessionId : String) (s : Session)
    (newGid newGid2 : String) (createResults createResults2 : List (Option Nat))
    (items : List Item) (g : Group)
    (hs : savedSessions sessionId = some s)
    (hmem : Item.group g ∈ items) (hlink : g.linkedSessionId = some sessionId) :
    restoreSession savedSessions sessionId newGid createResults items = (items, [])
    ∧ restoreSession savedSessions sessionId newGid2 createResults2
        (restoreSession savedSessions sessionId newGid createResults items).1
      = (items, []) := by
  have h1 := restoreSession_linked_noop hs newGid createResults hmem hlink
  refine ⟨h1, ?_⟩
  rw [h1]
  exact restoreSession_linked_noop hs newGid2 createResults2 hmem hlink

/-- Concrete saved session used by the C7 witness. -/
def sessionW : Session :=
  { id := "s1", name := "S", color := "#2196f3", autoSave := false,
    tabs := [{ url := "a", title := "A", customName := none }] }

/-- Concrete linked group used by the C7 witness. -/
def groupW : Group :=
  { id := "gl", name := "S", color := "#2196f3", tabs := [6],
    autoSave := false, linkedSessionId := some "s1" }

/-- Witness for C7: double restore of an already-open linked session at a
concrete input. -/
theorem claim_C7_restore_idempotent_witness :
    restoreSession (fun _ => some sessionW) "s1" "ng" [some 10] [Item.group groupW]
      = ([Item.group groupW], [])
    ∧ restoreSession (fun _ => some sessionW) "s1" "ng2" [some 11]
        (restoreSession (fun _ => some sessionW) "s1" "ng" [some 10]
          [Item.group groupW]).1
      = ([Item.group groupW], []) :=
  claim_C7_restore_idempotent _ "s1" sessionW "ng" "ng2" [some 10] [some 11]
    [Item.group groupW] groupW rfl (by decide) rfl

/-- C8: running startup sync on the result of a first startup sync with the
same live tab list produces the identical Ordering Model: the second run
removes nothing and adds nothing. -/
theorem claim_C8_sync_idempotent (pos : NewTabPos) (live : List Nat) (O : List Item) :
    syncItemsWithTabs pos live (syncItemsWithTabs pos live O)
      = syncItemsWithTabs pos live O :=
  syncItemsWithTabs_idem pos live O

/-- C9: operations that target an absent group id (ungroupTab,
dissolveGroup, autosave enqueueing) leave the Ordering Model and the
autosave queue unchanged, with no error signalled; ungroupTab with a tab id
that is not a member of the found group likewise leaves the model
unchanged. -/
theorem claim_C9_stale_noop :
    (∀ (items : List Item) (gid : String) (tabId : Nat) (queue : List String),
        findGroup gid items = none →
          ungroupTab tabId gid items = items
          ∧ dissolveGroup gid items = items
          ∧ queueAutosave gid items queue = queue)
    ∧ (∀ (items : List Item) (gid : String) (g : Group) (tabId : Nat),
        findGroup gid items = some g → tabId ∉ g.tabs →
          ungroupTab tabId gid items = items) := by
  constructor
  · intro items gid tabId queue h
    exact ⟨ungroupTab_no_group h tabId, dissolveGroup_no_group h,
      queueAutosave_no_group h queue⟩
  · intro items gid g tabId h ht
    exact ungroupTab_tab_not_mem h ht

/-- Witness for C9: the stale no-ops at concrete inputs. -/
theorem claim_C9_stale_noop_witness :
    (ungroupTab 5 "zz" [Item.tab 5] = [Item.tab 5]
      ∧ dissolveGroup "zz" [Item.tab 5] = [Item.tab 5]
      ∧ queueAutosave "zz" [Item.tab 5] ["q"] = ["q"])
    ∧ ungroupTab 9 "g2" [Item.group { id := "g2", name := "N", color := "c", tabs := [7] }]
        = [Item.group { id := "g2", name := "N", color := "c", tabs := [7] }] :=
  ⟨claim_C9_stale_noop.1 [Item.tab 5] "zz" 5 ["q"] (by decide),
    claim_C9_stale_noop.2
      [Item.group { id := "g2", name := "N", color := "c", tabs := [7] }] "g2"
      { id := "g2", name := "N", color := "c", tabs := [7] } 9 (by decide) (by decide)⟩

/-- C10: over a non-empty, duplicate-free flatten() order, when no valid
keyboard focus exists (the cursor is null or names a tab absent from the
flattened order), ArrowDown focuses the first tab and ArrowUp focuses the
last; when the focus is on the first (respectively last) tab, ArrowUp
(respectively ArrowDown) leaves the focus unchanged — navigation clamps
and never wraps. -/
theorem claim_C10_keyboard_nav (items : List Item)
    (hne : getAllTabIds items ≠ []) (hnd : (getAllTabIds items).Nodup) :
    (∀ focus : Option Nat,
        (focus = none ∨ ∃ f, focus = some f ∧ f ∉ getAllTabIds items) →
          keyNav items focus .down = some ((getAllTabIds items).head hne)
          ∧ keyNav items focus .up = some ((getAllTabIds items).getLast hne))
    ∧ keyNav items (some ((getAllTabIds items).head hne)) .up
        = some ((getAllTabIds items).head hne)
    ∧ keyNav items (some ((getAllTabIds items).getLast hne)) .down
        = some ((getAllTabIds items).getLast hne) := by
  refine ⟨?_, keyNav_head_up hne hnd, keyNav_last_down hne hnd⟩
  intro focus hinv
  have hcur := curIndex_invalid hinv
  exact ⟨keyNav_invalid_down hne hcur, keyNav_invalid_up hne hcur⟩

/-- Witness for C10: the four navigation behaviours at a concrete state. -/
theorem claim_C10_keyboard_nav_witness :
    keyNav [Item.tab 4, Item.tab 6] none .down = some 4
    ∧ keyNav [Item.tab 4, Item.tab 6] (some 99) .up = some 6
    ∧ keyNav [Item.tab 4, Item.tab 6] (some 4) .up = some 4
    ∧ keyNav [Item.tab 4, Item.tab 6] (some 6) .down = some 6 := by
  have h := claim_C10_keyboard_nav [Item.tab 4, Item.tab 6] (by decide) (by decide)
  refine ⟨?_, ?_, ?_, ?_⟩
  · exact ((h.1 none (Or.inl rfl)).1).trans (by decide)
  · exact ((h.1 (some 99) (Or.inr ⟨99, rfl, by decide⟩)).2).trans (by decide)
  · exact (h.2.1).trans (by decide)
  · exact (h.2.2).trans (by decide)

end IndependentTabs
